import Mathlib

/-!
Verification of the LVGL v8 animation scheduler (src/src/misc/lv_anim.c).

The C module is embedded shallowly:

* An animation record (lv_anim_t) becomes the structure AnimRec.  The header
  lv_anim.h is not part of the sources, so the field types follow the spec:
  values and times are unbounded Int (int32 arithmetic is modelled as exact
  integer arithmetic on the domain where the C program has defined behaviour),
  repeat_cnt is a Nat with the sentinel LV_ANIM_REPEAT_INFINITE, pointers
  (var and the callback function pointers) are Nat identities with 0 playing
  the role of NULL.
* The global state (the linked list LV_GC_ROOT(_lv_anim_ll), anim_run_round,
  anim_list_changed) becomes the structure AnimState.  The intrusive linked
  list is a List AnimRec; _lv_ll_ins_head prepends, _lv_ll_get_head /
  _lv_ll_get_next walk the list front to back, _lv_ll_remove deletes a node.
  Each inserted record receives a fresh identity from next_id, standing for
  the address of the allocated node.
* Callbacks (exec_cb, start_cb, ready_cb) are function-pointer identities.
  Their behaviour lives in an environment Env: each invocation is recorded as
  an Event (ghost trace) and may mutate the registry through a finite list of
  ApiCall actions - the public registry operations lv_anim_start, lv_anim_del
  and lv_anim_del_all, which is the only way a C callback can touch the
  scheduler state.  get_value_cb is modelled as a pure function of the target.
* The fields events and processedIds of AnimState are ghost instrumentation:
  events records every callback invocation, processedIds records every record
  the frame loop time-advances (the run_round parity flip).  No model
  operation reads them.
* lv_tick_elaps / last_timer_run belong to the external tick collaborator;
  anim_timer therefore takes the elapsed time as a parameter.  The timer
  pause performed by anim_mark_list_change is a performance signal to the
  external timer service and has no model content beyond list_changed.
-/

/-- Built-in path (easing) functions of lv_anim.c.  The C code stores a
function pointer lv_anim_path_cb_t; the model closes the set over the
built-ins, with none standing for a NULL path.cb (which anim_timer treats
as linear). -/
inductive PathKind where
  | linear
  | easeIn
  | easeOut
  | easeInOut
  | overshoot
  | bounce
  | step
deriving DecidableEq, Repr

/-- Modelled from the spec: the repeat-count sentinel marking an unbounded
animation (LV_ANIM_REPEAT_INFINITE of lv_anim.h, which is not under src;
the spec only says a sentinel marks "infinite"). -/
def LV_ANIM_REPEAT_INFINITE : Nat := 65535

/-- Shallow embedding of lv_anim_t.  id is the identity of the allocated
node (the node address in C); var and the callbacks are pointer identities
with 0 for NULL. -/
structure AnimRec where
  id : Nat
  var : Nat
  exec_cb : Nat
  start_cb : Nat
  ready_cb : Nat
  get_value_cb : Nat
  path : Option PathKind
  start_value : Int
  end_value : Int
  current_value : Int
  time : Int
  time_orig : Int
  act_time : Int
  playback_delay : Int
  playback_time : Int
  repeat_delay : Int
  repeat_cnt : Nat
  early_apply : Bool
  playback_now : Bool
  run_round : Bool
deriving DecidableEq, Repr

/-- Ghost trace entry: one callback invocation performed by the scheduler.
execEv carries the (var, value) pair pushed through exec_cb; startEv and
readyEv carry the record passed to start_cb resp. ready_cb (for ready_cb
this is the copy a_tmp made by anim_ready_handler). -/
inductive Event where
  | execEv (var : Nat) (value : Int)
  | startEv (a : AnimRec)
  | readyEv (a : AnimRec)
deriving DecidableEq, Repr

/-- One registry API call a user callback may perform while the scheduler
runs: lv_anim_del, lv_anim_del_all, or lv_anim_start (whose node allocation
may fail, hence the Bool). -/
inductive ApiCall where
  | del (var : Nat) (cb : Nat)
  | delAll
  | start (a : AnimRec) (allocOk : Bool)
deriving DecidableEq, Repr

/-- Behaviour of the opaque user callbacks.  A C callback body is an
arbitrary terminating computation; as far as the scheduler is concerned its
net effect is the finite sequence of registry API calls it performs, which
is what each eff function returns.  getValue models get_value_cb as a pure
reading of the target. -/
structure Env where
  execEff : Nat → Nat → Int → List ApiCall
  startEff : Nat → AnimRec → List ApiCall
  readyEff : Nat → AnimRec → List ApiCall
  getValue : Nat → Nat → Int

/-- Shallow embedding of the module state of lv_anim.c: the registry list
(head first, as walked by _lv_ll_get_head / _lv_ll_get_next), the globals
anim_run_round and anim_list_changed, the allocation counter next_id, and
the two ghost traces. -/
structure AnimState where
  registry : List AnimRec
  run_round : Bool
  list_changed : Bool
  next_id : Nat
  events : List Event
  processedIds : List Nat
deriving DecidableEq, Repr

/-- Arithmetic right shift by n bits, the meaning of the C expression
x >> n on a signed value (flooring division by 2 ^ n). -/
def ashr (x : Int) (n : Nat) : Int := Int.fdiv x (2 ^ n)

/-- Modelled from the spec: lv_map of lv_math.c (not under src), which the
path functions use to normalise elapsed time onto 0..1024.  Values at or
beyond the input range clamp to the output bounds (checked before the
division, so a zero-length input range never divides by zero); interior
values interpolate linearly with C truncating division. -/
def lvMap (x min_in max_in min_out max_out : Int) : Int :=
  if max_in ≤ x then max_out
  else if x ≤ min_in then min_out
  else Int.tdiv ((x - min_in) * (max_out - min_out)) (max_in - min_in) + min_out

/-- Modelled from the spec: lv_bezier3 of lv_math.c (not under src), the
fixed-point cubic Bezier on control values u0..u3 with the parameter t in
0..1024 (so the exact polynomial is divided by 1024 ^ 3 = 2 ^ 30). -/
def lvBezier3 (t u0 u1 u2 u3 : Nat) : Nat :=
  let s := 1024 - t
  (s ^ 3 * u0 + 3 * s ^ 2 * t * u1 + 3 * s * t ^ 2 * u2 + t ^ 3 * u3) / 2 ^ 30

/-- Embedding of lv_anim_path_linear. -/
def lvAnimPathLinear (a : AnimRec) : Int :=
  let step := lvMap a.act_time 0 a.time 0 1024
  ashr (step * (a.end_value - a.start_value)) 10 + a.start_value

/-- Embedding of lv_anim_path_ease_in (Bezier on 0, 50, 100, 1024). -/
def lvAnimPathEaseIn (a : AnimRec) : Int :=
  let t := (lvMap a.act_time 0 a.time 0 1024).toNat
  let step : Int := lvBezier3 t 0 50 100 1024
  ashr (step * (a.end_value - a.start_value)) 10 + a.start_value

/-- Embedding of lv_anim_path_ease_out (Bezier on 0, 900, 950, 1024). -/
def lvAnimPathEaseOut (a : AnimRec) : Int :=
  let t := (lvMap a.act_time 0 a.time 0 1024).toNat
  let step : Int := lvBezier3 t 0 900 950 1024
  ashr (step * (a.end_value - a.start_value)) 10 + a.start_value

/-- Embedding of lv_anim_path_ease_in_out (Bezier on 0, 50, 952, 1024). -/
def lvAnimPathEaseInOut (a : AnimRec) : Int :=
  let t := (lvMap a.act_time 0 a.time 0 1024).toNat
  let step : Int := lvBezier3 t 0 50 952 1024
  ashr (step * (a.end_value - a.start_value)) 10 + a.start_value

/-- Embedding of lv_anim_path_overshoot (Bezier on 0, 1000, 1300, 1024). -/
def lvAnimPathOvershoot (a : AnimRec) : Int :=
  let t := (lvMap a.act_time 0 a.time 0 1024).toNat
  let step : Int := lvBezier3 t 0 1000 1300 1024
  ashr (step * (a.end_value - a.start_value)) 10 + a.start_value

/-- Embedding of lv_anim_path_bounce.  The normalised time t is a uint32 in
C; the two bounce-back branches compute 1024 - t on values that may exceed
1024 by a hair, so the uint32 wraparound is modelled with emod 2 ^ 32
before the final clamp to 1024.  diff / 20 and diff / 40 are C truncating
divisions on a signed value. -/
def lvAnimPathBounce (a : AnimRec) : Int :=
  let t0 : Nat := (lvMap a.act_time 0 a.time 0 1024).toNat
  let diff0 : Int := a.end_value - a.start_value
  let td : Int × Int :=
    if t0 < 408 then ((t0 * 2500 / 1024 : Nat), diff0)
    else if t0 < 614 then
      (((1024 - ((t0 : Int) - 408) * 5).emod (2 ^ 32)), Int.tdiv diff0 20)
    else if t0 < 819 then (((t0 - 614) * 5 : Nat), Int.tdiv diff0 20)
    else if t0 < 921 then
      (((1024 - ((t0 : Int) - 819) * 10).emod (2 ^ 32)), Int.tdiv diff0 40)
    else if t0 ≤ 1024 then (((t0 - 921) * 10 : Nat), Int.tdiv diff0 40)
    else ((t0 : Int), diff0)
  let t1 : Int := if 1024 < td.1 then 1024 else td.1
  let step : Int := lvBezier3 t1.toNat 1024 800 500 0
  a.end_value - ashr (step * td.2) 10

/-- Embedding of lv_anim_path_step. -/
def lvAnimPathStep (a : AnimRec) : Int :=
  if a.time ≤ a.act_time then a.end_value else a.start_value

/-- Dispatch on a built-in path kind. -/
def pathEvalK (k : PathKind) (a : AnimRec) : Int :=
  match k with
  | .linear => lvAnimPathLinear a
  | .easeIn => lvAnimPathEaseIn a
  | .easeOut => lvAnimPathEaseOut a
  | .easeInOut => lvAnimPathEaseInOut a
  | .overshoot => lvAnimPathOvershoot a
  | .bounce => lvAnimPathBounce a
  | .step => lvAnimPathStep a

/-- Value computation of anim_timer lines 481-483: call a->path.cb if it is
set, otherwise fall back to lv_anim_path_linear. -/
def pathValue (p : Option PathKind) (a : AnimRec) : Int :=
  match p with
  | none => lvAnimPathLinear a
  | some k => pathEvalK k a

/-- Field update of the registry node with identity i, the model of a C
write through a node pointer.  Touching a node that is no longer linked
(freed) is lost, matching the fact that the list no longer sees it. -/
def updateById (reg : List AnimRec) (i : Nat) (f : AnimRec → AnimRec) : List AnimRec :=
  reg.map fun r => if r.id = i then f r else r

/-- State update writing fields of the node with identity i. -/
def regUpdate (i : Nat) (f : AnimRec → AnimRec) (st : AnimState) : AnimState :=
  { st with registry := updateById st.registry i f }

/-- Ghost: record one callback invocation in the trace. -/
def pushEvent (e : Event) (st : AnimState) : AnimState :=
  { st with events := e :: st.events }

/-- Flag side of anim_mark_list_change: raise anim_list_changed.  (The
timer pause it also toggles belongs to the external timer service.) -/
def markChange (st : AnimState) : AnimState :=
  { st with list_changed := true }

/-- Head insertion of _lv_ll_ins_head with a successful allocation: the
fresh node goes to the front of the list and consumes the next identity. -/
def insHead (r : AnimRec) (st : AnimState) : AnimState :=
  { st with registry := r :: st.registry, next_id := st.next_id + 1 }

/-- Unlink and free the node with identity i, plus anim_mark_list_change
(_lv_ll_remove and lv_mem_free of the terminal branch). -/
def removeNode (i : Nat) (st : AnimState) : AnimState :=
  { st with registry := st.registry.filter (fun r => r.id != i), list_changed := true }

/-- Keep predicate of lv_anim_del: a node survives unless its var matches
and its exec_cb matches (or the exec_cb argument is the NULL wildcard). -/
def delKeep (var cb : Nat) (r : AnimRec) : Bool :=
  !(r.var == var && (r.exec_cb == cb || cb == 0))

/-- Embedding of lv_anim_del: remove every record of var with the given
exec_cb (cb = 0 deletes all records of var).  anim_mark_list_change is
reflected in list_changed, and only runs when something was removed. -/
def lvAnimDel (st : AnimState) (var cb : Nat) : AnimState :=
  if st.registry.all (delKeep var cb) then st
  else { st with registry := st.registry.filter (delKeep var cb), list_changed := true }

/-- Embedding of lv_anim_del_all (_lv_ll_clear plus anim_mark_list_change). -/
def lvAnimDelAll (st : AnimState) : AnimState :=
  { st with registry := [], list_changed := true }

/-- Embedding of lv_anim_get: first record of the list matching var and
exec_cb exactly (no wildcard here, per line 205). -/
def lvAnimGet (st : AnimState) (var cb : Nat) : Option AnimRec :=
  st.registry.find? fun r => r.var == var && r.exec_cb == cb

/-- Embedding of lv_anim_count_running. -/
def lvAnimCountRunning (st : AnimState) : Nat := st.registry.length

/-- Embedding of lv_anim_speed_to_time.  d = LV_ABS(start - end) is a
uint32; d * 1000 is uint32 arithmetic, hence the explicit mod 2 ^ 32. -/
def lvAnimSpeedToTime (speed : Nat) (start_ end_ : Int) : Nat :=
  let d : Nat := (start_ - end_).natAbs
  let time := d * 1000 % 2 ^ 32 / speed
  if time = 0 then 1 else time

/-- Duplicate-suppression phase of lv_anim_start line 98: delete records of
the same (var, exec_cb) pair, but only when exec_cb is not NULL - a NULL
exec_cb would make lv_anim_del delete every animation of var, which the
code deliberately avoids. -/
def delPhase (st : AnimState) (a : AnimRec) : AnimState :=
  if a.exec_cb ≠ 0 then lvAnimDel st a.var a.exec_cb else st

/-- Record stored by lv_anim_start: the descriptor with the fresh node
identity, time_orig saved from time, run_round stamped with the current
global parity, and - when early_apply with a get_value_cb - start and end
values offset by the target's current value. -/
def storedOf (env : Env) (st : AnimState) (a : AnimRec) : AnimRec :=
  let base := { a with id := st.next_id, time_orig := a.time, run_round := st.run_round }
  if base.early_apply = true ∧ base.get_value_cb ≠ 0 then
    let v := env.getValue base.get_value_cb base.var
    { base with start_value := base.start_value + v, end_value := base.end_value + v }
  else base

/-- Embedding of lv_anim_start.  allocOk is the outcome of the node
allocation inside _lv_ll_ins_head; on failure the function returns after
the duplicate-suppression phase with nothing inserted.  On success the
record is prepended (head insertion), the early apply pushes start_value
through exec_cb, and anim_mark_list_change runs. -/
def lvAnimStart (env : Env) (allocOk : Bool) (st : AnimState) (a : AnimRec) : AnimState :=
  let st1 := delPhase st a
  if allocOk then
    let stored := storedOf env st1 a
    let st2 := insHead stored st1
    let st3 :=
      if stored.early_apply = true ∧ stored.exec_cb ≠ 0 ∧ stored.var ≠ 0 then
        pushEvent (Event.execEv stored.var stored.start_value) st2
      else st2
    markChange st3
  else st1

/-- Interpretation of one registry API call performed by a user callback. -/
def applyApiCall (env : Env) (st : AnimState) : ApiCall → AnimState
  | .del var cb => lvAnimDel st var cb
  | .delAll => lvAnimDelAll st
  | .start a ok => lvAnimStart env ok st a

/-- Interpretation of the action sequence of one callback invocation. -/
def applyApiCalls (env : Env) (st : AnimState) (cs : List ApiCall) : AnimState :=
  cs.foldl (applyApiCall env) st

/-- Blank animation record, the all-zero lv_anim_t before lv_anim_init
fills the defaults in. -/
def zeroRec : AnimRec where
  id := 0
  var := 0
  exec_cb := 0
  start_cb := 0
  ready_cb := 0
  get_value_cb := 0
  path := none
  start_value := 0
  end_value := 0
  current_value := 0
  time := 0
  time_orig := 0
  act_time := 0
  playback_delay := 0
  playback_time := 0
  repeat_delay := 0
  repeat_cnt := 0
  early_apply := false
  playback_now := false
  run_round := false

/-- Embedding of lv_anim_init: zero the descriptor, then set time 500,
range 0..100, the linear default path, one repeat, early apply on. -/
def lvAnimInit : AnimRec :=
  { zeroRec with time := 500, start_value := 0, end_value := 100,
                 path := some PathKind.linear, repeat_cnt := 1, early_apply := true }

/-- Decrement of anim_ready_handler lines 517-519: at the end of a forward
leg, a positive, non-infinite repeat count goes down by one. -/
def decRec (a : AnimRec) : AnimRec :=
  if a.playback_now = false ∧ 0 < a.repeat_cnt ∧ a.repeat_cnt ≠ LV_ANIM_REPEAT_INFINITE then
    { a with repeat_cnt := a.repeat_cnt - 1 }
  else a

/-- Terminal condition of anim_ready_handler line 524: no repeat left and
either no playback configured or the playback leg already ran. -/
def isTerminal (a : AnimRec) : Prop :=
  a.repeat_cnt = 0 ∧ (a.playback_time = 0 ∨ (a.playback_time ≠ 0 ∧ a.playback_now = true))

instance (a : AnimRec) : Decidable (isTerminal a) := by
  unfold isTerminal
  infer_instance

/-- Restart of anim_ready_handler lines 539-556: reset elapsed time to the
repeat delay (to the playback delay when about to turn back), and with
playback configured toggle the phase, swap the endpoints and switch the
duration between playback_time and time_orig. -/
def restartRec (a : AnimRec) : AnimRec :=
  if a.playback_time ≠ 0 then
    { a with
      act_time := if a.playback_now = false then -a.playback_delay else -a.repeat_delay,
      playback_now := !a.playback_now,
      start_value := a.end_value,
      end_value := a.start_value,
      time := if a.playback_now = true then a.time_orig else a.playback_time }
  else { a with act_time := -a.repeat_delay }

/-- Embedding of anim_ready_handler.  The argument a mirrors the node the
frame loop just finished advancing; on the terminal branch the node is
copied, unlinked and freed before the ready callback runs on the copy, on
the non-terminal branch the node's fields are rewritten in place. -/
def animReadyHandler (env : Env) (st : AnimState) (a : AnimRec) : AnimState :=
  let a1 := decRec a
  let st1 := regUpdate a1.id (fun r => { r with repeat_cnt := a1.repeat_cnt }) st
  if isTerminal a1 then
    let st2 := removeNode a1.id st1
    if a1.ready_cb ≠ 0 then
      applyApiCalls env (pushEvent (Event.readyEv a1) st2) (env.readyEff a1.ready_cb a1)
    else st2
  else regUpdate a1.id restartRec st1

/-- First-tick condition of anim_timer line 469: elapsed time crosses from
the delay (non-positive) into the running range this frame. -/
def isFirstTick (elaps : Int) (a : AnimRec) : Prop :=
  a.act_time ≤ 0 ∧ 0 ≤ a.act_time + elaps

instance (elaps : Int) (a : AnimRec) : Decidable (isFirstTick elaps a) := by
  unfold isFirstTick
  infer_instance

/-- Relative-value offset of anim_timer lines 470-474, applied on the first
tick when the start was not applied early: both endpoints move by the
target's current value. -/
def ofsRec (env : Env) (elaps : Int) (a : AnimRec) : AnimRec :=
  if isFirstTick elaps a ∧ a.early_apply = false ∧ a.get_value_cb ≠ 0 then
    let v := env.getValue a.get_value_cb a.var
    { a with start_value := a.start_value + v, end_value := a.end_value + v }
  else a

/-- First-tick side effects of anim_timer lines 469-476: write the offset
endpoints back to the node and invoke start_cb. -/
def tickSetup (env : Env) (elaps : Int) (a : AnimRec) (st : AnimState) : AnimState :=
  if isFirstTick elaps a then
    let a2 := ofsRec env elaps a
    let stx :=
      if a.early_apply = false ∧ a.get_value_cb ≠ 0 then
        regUpdate a2.id
          (fun r => { r with start_value := a2.start_value, end_value := a2.end_value }) st
      else st
    if a2.start_cb ≠ 0 then
      applyApiCalls env (pushEvent (Event.startEv a2) stx) (env.startEff a2.start_cb a2)
    else stx
  else st

/-- Record after the frame advance of anim_timer line 477. -/
def advRec (env : Env) (elaps : Int) (a : AnimRec) : AnimRec :=
  let a2 := ofsRec env elaps a
  { a2 with act_time := a2.act_time + elaps }

/-- Record after the clamp of anim_timer line 479. -/
def clampRec (a : AnimRec) : AnimRec :=
  if a.time < a.act_time then { a with act_time := a.time } else a

/-- Value application of anim_timer lines 481-489: evaluate the path, and
when the result differs from current_value store it and push it through
exec_cb (change suppression). -/
def applyStep (env : Env) (a : AnimRec) (st : AnimState) : AnimState :=
  let newv := pathValue a.path a
  if newv ≠ a.current_value then
    let st6 := regUpdate a.id (fun r => { r with current_value := newv }) st
    if a.exec_cb ≠ 0 then
      applyApiCalls env (pushEvent (Event.execEv a.var newv) st6)
        (env.execEff a.exec_cb a.var newv)
    else st6
  else st

/-- Parity flip of anim_timer line 465 on the node with identity i, plus
the ghost note that this frame advanced that record. -/
def flipState (st : AnimState) (i : Nat) : AnimState :=
  { st with
    registry := updateById st.registry i (fun r => { r with run_round := st.run_round }),
    processedIds := i :: st.processedIds }

/-- Work of one processed anim_timer iteration after the parity flip
(lines 467-495), on the already-flipped local record a1: first-tick setup,
advance and clamp elapsed time, apply the value, and hand a finished
record to anim_ready_handler. -/
def processTail (env : Env) (elaps : Int) (a1 : AnimRec) (st1 : AnimState) : AnimState :=
  let st3 := tickSetup env elaps a1 st1
  let a3 := advRec env elaps a1
  let st4 := regUpdate a3.id (fun r => { r with act_time := a3.act_time }) st3
  if 0 ≤ a3.act_time then
    let a4 := clampRec a3
    let st5 := regUpdate a4.id (fun r => { r with act_time := a4.act_time }) st4
    let st7 := applyStep env a4 st5
    let a5 :=
      if pathValue a4.path a4 ≠ a4.current_value then
        { a4 with current_value := pathValue a4.path a4 }
      else a4
    if a5.time ≤ a5.act_time then animReadyHandler env st7 a5 else st7
  else st4

/-- One processed iteration of the anim_timer loop body (lines 464-495) on
the record a.  The local record mirrors the node; every node write goes
through its identity, so writes to a node a callback deleted are lost, as
in C where the node is no longer linked. -/
def processAnim (env : Env) (elaps : Int) (st : AnimState) (a : AnimRec) : AnimState :=
  processTail env elaps { a with run_round := st.run_round } (flipState st a.id)

/-- Count of registry records whose parity differs from g: the records the
current frame has not yet advanced. -/
def unprocCount (reg : List AnimRec) (g : Bool) : Nat :=
  reg.countP fun r => r.run_round != g

/-- Unprocessed records of a state, the frame loop's termination measure. -/
def unproc (st : AnimState) : Nat := unprocCount st.registry st.run_round

/-- Transition relation for the termination measure: a scheduler step never
increases the number of unprocessed records and never touches the global
parity. -/
def StepLe (s t : AnimState) : Prop :=
  unproc t ≤ unproc s ∧ t.run_round = s.run_round

theorem stepLe_refl (s : AnimState) : StepLe s s := ⟨le_refl _, rfl⟩

theorem stepLe_trans {s t u : AnimState} (h1 : StepLe s t) (h2 : StepLe t u) : StepLe s u :=
  ⟨le_trans h2.1 h1.1, h2.2.trans h1.2⟩

theorem unprocCount_updateById_le (reg : List AnimRec) (i : Nat) (g : Bool)
    (f : AnimRec → AnimRec)
    (hf : ∀ r, (f r).run_round = r.run_round ∨ (f r).run_round = g) :
    unprocCount (updateById reg i f) g ≤ unprocCount reg g := by
  unfold unprocCount updateById
  rw [List.countP_map]
  apply List.countP_mono_left
  intro r _ h
  simp only [Function.comp] at h
  by_cases hc : r.id = i
  · rw [if_pos hc] at h
    rcases hf r with h2 | h2
    · rwa [h2] at h
    · rw [h2, bne_self_eq_false] at h
      exact absurd h (by simp)
  · rwa [if_neg hc] at h

theorem unprocCount_flip_lt (reg : List AnimRec) (i : Nat) (g : Bool)
    (h : ∃ r ∈ reg, r.id = i ∧ r.run_round ≠ g) :
    unprocCount (updateById reg i fun r => { r with run_round := g }) g
      < unprocCount reg g := by
  induction reg with
  | nil => simp at h
  | cons r rest ih =>
    rcases h with ⟨w, hw, hwi, hwr⟩
    have hrest : unprocCount (updateById rest i fun r => { r with run_round := g }) g
        ≤ unprocCount rest g :=
      unprocCount_updateById_le rest i g _ (fun _ => Or.inr rfl)
    rcases List.mem_cons.mp hw with rfl | hmem
    · have h1 : unprocCount (updateById (w :: rest) i fun r => { r with run_round := g }) g
          = unprocCount (updateById rest i fun r => { r with run_round := g }) g := by
        unfold unprocCount updateById
        simp [List.countP_cons, hwi]
      have h2 : unprocCount rest g + 1 ≤ unprocCount (w :: rest) g := by
        unfold unprocCount
        rw [List.countP_cons]
        have : (w.run_round != g) = true := bne_iff_ne.mpr hwr
        simp [this]
      omega
    · have ht := ih ⟨w, hmem, hwi, hwr⟩
      have h1 : unprocCount (updateById (r :: rest) i fun x => { x with run_round := g }) g
          ≤ unprocCount (updateById rest i fun x => { x with run_round := g }) g
            + (if (r.run_round != g) = true then 1 else 0) := by
        unfold unprocCount updateById
        simp only [List.map_cons, List.countP_cons]
        by_cases hc : r.id = i
        · simp [hc]
        · simp [hc]
      have h2 : unprocCount (r :: rest) g
          = unprocCount rest g + (if (r.run_round != g) = true then 1 else 0) := by
        unfold unprocCount
        rw [List.countP_cons]
      omega

theorem unprocCount_filter_le (reg : List AnimRec) (p : AnimRec → Bool) (g : Bool) :
    unprocCount (reg.filter p) g ≤ unprocCount reg g := by
  unfold unprocCount
  rw [List.countP_filter]
  exact List.countP_mono_left fun a _ h => by
    simp only [Bool.and_eq_true] at h
    exact h.1

theorem storedOf_run_round (env : Env) (st : AnimState) (a : AnimRec) :
    (storedOf env st a).run_round = st.run_round := by
  simp only [storedOf]
  split <;> rfl

theorem stepLe_ite {c : Prop} [Decidable c] {s t u : AnimState}
    (hf : StepLe s t) (hg : StepLe s u) : StepLe s (if c then t else u) := by
  split <;> assumption

theorem stepLe_pushEvent (e : Event) (s : AnimState) : StepLe s (pushEvent e s) :=
  ⟨le_refl _, rfl⟩

theorem stepLe_markChange (s : AnimState) : StepLe s (markChange s) :=
  ⟨le_refl _, rfl⟩

theorem stepLe_removeNode (i : Nat) (s : AnimState) : StepLe s (removeNode i s) :=
  ⟨unprocCount_filter_le s.registry _ s.run_round, rfl⟩

theorem stepLe_insHead (r : AnimRec) (s : AnimState) (hr : r.run_round = s.run_round) :
    StepLe s (insHead r s) := by
  constructor
  · show unprocCount (r :: s.registry) s.run_round ≤ unproc s
    unfold unprocCount
    rw [List.countP_cons, hr, bne_self_eq_false]
    simp [unproc, unprocCount]
  · rfl

theorem stepLe_regUpdate (i : Nat) (f : AnimRec → AnimRec) (s : AnimState)
    (hf : ∀ r, (f r).run_round = r.run_round) : StepLe s (regUpdate i f s) :=
  ⟨unprocCount_updateById_le s.registry i s.run_round f (fun r => Or.inl (hf r)), rfl⟩

theorem stepLe_del (s : AnimState) (v c : Nat) : StepLe s (lvAnimDel s v c) := by
  unfold lvAnimDel
  split
  · exact stepLe_refl s
  · exact ⟨unprocCount_filter_le s.registry _ s.run_round, rfl⟩

theorem stepLe_delAll (s : AnimState) : StepLe s (lvAnimDelAll s) :=
  ⟨Nat.zero_le _, rfl⟩

theorem stepLe_delPhase (s : AnimState) (a : AnimRec) : StepLe s (delPhase s a) := by
  unfold delPhase
  split
  · exact stepLe_del s a.var a.exec_cb
  · exact stepLe_refl s

theorem stepLe_start (env : Env) (ok : Bool) (s : AnimState) (a : AnimRec) :
    StepLe s (lvAnimStart env ok s a) := by
  refine stepLe_trans (stepLe_delPhase s a) ?_
  simp only [lvAnimStart]
  apply stepLe_ite
  · refine stepLe_trans (stepLe_insHead _ _ (storedOf_run_round env _ a)) ?_
    exact stepLe_trans (stepLe_ite (stepLe_pushEvent _ _) (stepLe_refl _))
      (stepLe_markChange _)
  · exact stepLe_refl _

theorem stepLe_apiCall (env : Env) (s : AnimState) (c : ApiCall) :
    StepLe s (applyApiCall env s c) := by
  cases c with
  | del v cb => exact stepLe_del s v cb
  | delAll => exact stepLe_delAll s
  | start a ok => exact stepLe_start env ok s a

theorem stepLe_apiCalls (env : Env) (cs : List ApiCall) (s : AnimState) :
    StepLe s (applyApiCalls env s cs) := by
  induction cs generalizing s with
  | nil => exact stepLe_refl s
  | cons c cs ih =>
    exact stepLe_trans (stepLe_apiCall env s c) (ih (applyApiCall env s c))

theorem stepLe_ready (env : Env) (s : AnimState) (a : AnimRec) :
    StepLe s (animReadyHandler env s a) := by
  simp only [animReadyHandler]
  refine stepLe_trans (stepLe_regUpdate (decRec a).id
    (fun r => { r with repeat_cnt := (decRec a).repeat_cnt }) s fun r => rfl) ?_
  apply stepLe_ite
  · apply stepLe_ite
    · exact stepLe_trans (stepLe_removeNode _ _)
        (stepLe_trans (stepLe_pushEvent _ _) (stepLe_apiCalls env _ _))
    · exact stepLe_removeNode _ _
  · exact stepLe_regUpdate _ _ _ fun r => by simp only [restartRec]; split <;> rfl

theorem stepLe_tickSetup (env : Env) (elaps : Int) (a : AnimRec) (s : AnimState) :
    StepLe s (tickSetup env elaps a s) := by
  simp only [tickSetup]
  apply stepLe_ite
  · have h1 : StepLe s (if a.early_apply = false ∧ a.get_value_cb ≠ 0 then
        regUpdate (ofsRec env elaps a).id
          (fun r => { r with start_value := (ofsRec env elaps a).start_value,
                             end_value := (ofsRec env elaps a).end_value }) s
      else s) :=
      stepLe_ite (stepLe_regUpdate _ _ s fun r => rfl) (stepLe_refl s)
    apply stepLe_ite
    · exact stepLe_trans h1 (stepLe_trans (stepLe_pushEvent _ _) (stepLe_apiCalls env _ _))
    · exact h1
  · exact stepLe_refl s

theorem stepLe_applyStep (env : Env) (a : AnimRec) (s : AnimState) :
    StepLe s (applyStep env a s) := by
  simp only [applyStep]
  apply stepLe_ite
  · have h1 : StepLe s (regUpdate a.id
        (fun r => { r with current_value := pathValue a.path a }) s) :=
      stepLe_regUpdate _ _ s fun r => rfl
    apply stepLe_ite
    · exact stepLe_trans h1 (stepLe_trans (stepLe_pushEvent _ _) (stepLe_apiCalls env _ _))
    · exact h1
  · exact stepLe_refl s

theorem stepLe_processTail (env : Env) (elaps : Int) (a1 : AnimRec) (s : AnimState) :
    StepLe s (processTail env elaps a1 s) := by
  simp only [processTail]
  refine stepLe_trans (stepLe_tickSetup env elaps a1 s) ?_
  refine stepLe_trans (stepLe_regUpdate (advRec env elaps a1).id
    (fun r => { r with act_time := (advRec env elaps a1).act_time })
    (tickSetup env elaps a1 s) fun r => rfl) ?_
  apply stepLe_ite
  · refine stepLe_trans (stepLe_regUpdate (clampRec (advRec env elaps a1)).id
      (fun r => { r with act_time := (clampRec (advRec env elaps a1)).act_time })
      _ fun r => rfl) ?_
    refine stepLe_trans (stepLe_applyStep env (clampRec (advRec env elaps a1)) _) ?_
    apply stepLe_ite
    · exact stepLe_ready env _ _
    · exact stepLe_refl _
  · exact stepLe_refl _

theorem unproc_processAnim_lt (env : Env) (elaps : Int) (st : AnimState) (a : AnimRec)
    (hmem : a ∈ st.registry) (hrr : a.run_round ≠ st.run_round) :
    unproc (processAnim env elaps st a) < unproc st := by
  have hflip : unproc (flipState st a.id) < unproc st :=
    unprocCount_flip_lt st.registry a.id st.run_round ⟨a, hmem, rfl, hrr⟩
  have htail := stepLe_processTail env elaps { a with run_round := st.run_round }
    (flipState st a.id)
  exact lt_of_le_of_lt htail.1 hflip

/-- Embedding of the anim_timer while loop (lines 457-504), walking the
registry from position k.  Each iteration clears anim_list_changed, skips a
record already carrying the frame's parity, otherwise advances it; when the
registry changed under a callback the walk resumes from the current head,
otherwise it moves to the next node.  Termination: an advanced record takes
the frame's parity and records inserted by callbacks already carry it, so
the number of unprocessed records strictly falls on every processed
iteration, and a skip shortens the remaining walk. -/
def timerLoop (env : Env) (elaps : Int) (st : AnimState) (k : Nat) : AnimState :=
  match h : st.registry[k]? with
  | none => st
  | some a =>
    let st0 := { st with list_changed := false }
    if hr : a.run_round = st0.run_round then timerLoop env elaps st0 (k + 1)
    else
      let st1 := processAnim env elaps st0 a
      if st1.list_changed then timerLoop env elaps st1 0
      else timerLoop env elaps st1 (k + 1)
termination_by (unproc st, st.registry.length - k)
decreasing_by
  · apply Prod.Lex.right
    have hk : k < st.registry.length := (List.getElem?_eq_some_iff.mp h).1
    omega
  · apply Prod.Lex.left
    exact unproc_processAnim_lt env elaps _ a (List.getElem?_mem h) hr
  · apply Prod.Lex.left
    exact unproc_processAnim_lt env elaps _ a (List.getElem?_mem h) hr

/-- Embedding of anim_timer (without the external tick sampling): flip the
global parity, then walk the registry from the head.  The ghost visited
list starts empty each frame. -/
def animTimer (env : Env) (elaps : Int) (st : AnimState) : AnimState :=
  timerLoop env elaps { st with run_round := !st.run_round, processedIds := [] } 0

theorem timerLoop_none (env : Env) (elaps : Int) (st : AnimState) (k : Nat)
    (h : st.registry[k]? = none) : timerLoop env elaps st k = st := by
  conv_lhs => unfold timerLoop
  split
  · rfl
  · simp_all

theorem timerLoop_skip (env : Env) (elaps : Int) (st : AnimState) (k : Nat) (a : AnimRec)
    (h : st.registry[k]? = some a) (hr : a.run_round = st.run_round) :
    timerLoop env elaps st k
      = timerLoop env elaps { st with list_changed := false } (k + 1) := by
  conv_lhs => unfold timerLoop
  split
  · simp_all
  · rename_i a' h'
    rw [h] at h'
    cases h'
    rw [dif_pos hr]

theorem timerLoop_proc (env : Env) (elaps : Int) (st : AnimState) (k : Nat) (a : AnimRec)
    (h : st.registry[k]? = some a) (hr : ¬a.run_round = st.run_round) :
    timerLoop env elaps st k
      = if (processAnim env elaps { st with list_changed := false } a).list_changed
        then timerLoop env elaps
          (processAnim env elaps { st with list_changed := false } a) 0
        else timerLoop env elaps
          (processAnim env elaps { st with list_changed := false } a) (k + 1) := by
  conv_lhs => unfold timerLoop
  split
  · simp_all
  · rename_i a' h'
    rw [h] at h'
    cases h'
    rw [dif_neg hr]

/-- The (identity, parity) shape of the registry, which a mutation-free
iteration step leaves unchanged. -/
def proj (st : AnimState) : List (Nat × Bool) :=
  st.registry.map fun r => (r.id, r.run_round)

/-- Transition relation for the restart-from-head argument: when a step
ends with anim_list_changed still clear, the step neither raised nor
cleared the flag and left the registry shape alone. -/
def Tame (s t : AnimState) : Prop :=
  t.list_changed = false → s.list_changed = false ∧ proj t = proj s

theorem tame_refl (s : AnimState) : Tame s s := fun h => ⟨h, rfl⟩

theorem tame_trans {s t u : AnimState} (h1 : Tame s t) (h2 : Tame t u) : Tame s u :=
  fun h =>
    have h4 := h2 h
    have h6 := h1 h4.1
    ⟨h6.1, h4.2.trans h6.2⟩

theorem tame_ite {c : Prop} [Decidable c] {s t u : AnimState}
    (hf : Tame s t) (hg : Tame s u) : Tame s (if c then t else u) := by
  split <;> assumption

theorem updateById_proj (reg : List AnimRec) (i : Nat) (f : AnimRec → AnimRec)
    (hf : ∀ r, (f r).id = r.id ∧ (f r).run_round = r.run_round) :
    (updateById reg i f).map (fun r => (r.id, r.run_round))
      = reg.map fun r => (r.id, r.run_round) := by
  unfold updateById
  rw [List.map_map]
  apply List.map_congr_left
  intro r _
  by_cases hc : r.id = i <;> simp [hc, Function.comp, (hf r).1, (hf r).2]

theorem tame_pushEvent (e : Event) (s : AnimState) : Tame s (pushEvent e s) :=
  fun h => ⟨h, rfl⟩

theorem tame_markChange (s : AnimState) : Tame s (markChange s) :=
  fun h => absurd h (by simp [markChange])

theorem tame_removeNode (i : Nat) (s : AnimState) : Tame s (removeNode i s) :=
  fun h => absurd h (by simp [removeNode])

theorem tame_delAll (s : AnimState) : Tame s (lvAnimDelAll s) :=
  fun h => absurd h (by simp [lvAnimDelAll])

theorem tame_regUpdate (i : Nat) (f : AnimRec → AnimRec) (s : AnimState)
    (hf : ∀ r, (f r).id = r.id ∧ (f r).run_round = r.run_round) :
    Tame s (regUpdate i f s) :=
  fun h => ⟨h, updateById_proj s.registry i f hf⟩

theorem tame_del (s : AnimState) (v c : Nat) : Tame s (lvAnimDel s v c) := by
  unfold lvAnimDel
  split
  · exact tame_refl s
  · exact fun h => absurd h (by simp)

theorem tame_delPhase (s : AnimState) (a : AnimRec) : Tame s (delPhase s a) := by
  unfold delPhase
  split
  · exact tame_del s a.var a.exec_cb
  · exact tame_refl s

theorem tame_start (env : Env) (ok : Bool) (s : AnimState) (a : AnimRec) :
    Tame s (lvAnimStart env ok s a) := by
  simp only [lvAnimStart]
  apply tame_ite
  · exact fun h => absurd h (by simp [markChange])
  · exact tame_delPhase s a

theorem tame_apiCall (env : Env) (s : AnimState) (c : ApiCall) :
    Tame s (applyApiCall env s c) := by
  cases c with
  | del v cb => exact tame_del s v cb
  | delAll => exact tame_delAll s
  | start a ok => exact tame_start env ok s a

theorem tame_apiCalls (env : Env) (cs : List ApiCall) (s : AnimState) :
    Tame s (applyApiCalls env s cs) := by
  induction cs generalizing s with
  | nil => exact tame_refl s
  | cons c cs ih =>
    exact tame_trans (tame_apiCall env s c) (ih (applyApiCall env s c))

theorem tame_ready (env : Env) (s : AnimState) (a : AnimRec) :
    Tame s (animReadyHandler env s a) := by
  simp only [animReadyHandler]
  refine tame_trans (tame_regUpdate (decRec a).id
    (fun r => { r with repeat_cnt := (decRec a).repeat_cnt }) s fun r => ⟨rfl, rfl⟩) ?_
  apply tame_ite
  · apply tame_ite
    · exact tame_trans (tame_removeNode _ _)
        (tame_trans (tame_pushEvent _ _) (tame_apiCalls env _ _))
    · exact tame_removeNode _ _
  · exact tame_regUpdate _ _ _ fun r => by
      simp only [restartRec]; split <;> exact ⟨rfl, rfl⟩

theorem tame_tickSetup (env : Env) (elaps : Int) (a : AnimRec) (s : AnimState) :
    Tame s (tickSetup env elaps a s) := by
  simp only [tickSetup]
  apply tame_ite
  · have h1 : Tame s (if a.early_apply = false ∧ a.get_value_cb ≠ 0 then
        regUpdate (ofsRec env elaps a).id
          (fun r => { r with start_value := (ofsRec env elaps a).start_value,
                             end_value := (ofsRec env elaps a).end_value }) s
      else s) :=
      tame_ite (tame_regUpdate _ _ s fun r => ⟨rfl, rfl⟩) (tame_refl s)
    apply tame_ite
    · exact tame_trans h1 (tame_trans (tame_pushEvent _ _) (tame_apiCalls env _ _))
    · exact h1
  · exact tame_refl s

theorem tame_applyStep (env : Env) (a : AnimRec) (s : AnimState) :
    Tame s (applyStep env a s) := by
  simp only [applyStep]
  apply tame_ite
  · have h1 : Tame s (regUpdate a.id
        (fun r => { r with current_value := pathValue a.path a }) s) :=
      tame_regUpdate _ _ s fun r => ⟨rfl, rfl⟩
    apply tame_ite
    · exact tame_trans h1 (tame_trans (tame_pushEvent _ _) (tame_apiCalls env _ _))
    · exact h1
  · exact tame_refl s

theorem tame_processTail (env : Env) (elaps : Int) (a1 : AnimRec) (s : AnimState) :
    Tame s (processTail env elaps a1 s) := by
  simp only [processTail]
  refine tame_trans (tame_tickSetup env elaps a1 s) ?_
  refine tame_trans (tame_regUpdate (advRec env elaps a1).id
    (fun r => { r with act_time := (advRec env elaps a1).act_time })
    (tickSetup env elaps a1 s) fun r => ⟨rfl, rfl⟩) ?_
  apply tame_ite
  · refine tame_trans (tame_regUpdate (clampRec (advRec env elaps a1)).id
      (fun r => { r with act_time := (clampRec (advRec env elaps a1)).act_time })
      _ fun r => ⟨rfl, rfl⟩) ?_
    refine tame_trans (tame_applyStep env (clampRec (advRec env elaps a1)) _) ?_
    apply tame_ite
    · exact tame_ready env _ _
    · exact tame_refl _
  · exact tame_refl _

theorem tame_processAnim (env : Env) (elaps : Int) (st : AnimState) (a : AnimRec) :
    Tame (flipState st a.id) (processAnim env elaps st a) :=
  tame_processTail env elaps { a with run_round := st.run_round } (flipState st a.id)

/-- Node identities of the live registry records, in iteration order. -/
def regIds (st : AnimState) : List Nat := st.registry.map fun r => r.id

/-- Frame invariant of the anim_timer pass.  g is the parity of the running
frame, init the identities present when the pass began: identities are
unique, the ghost visited list has no duplicate, a visited record carries
the frame parity, an initial record carrying the frame parity was visited,
and every identity (live or initial) is below the allocation counter. -/
structure FrameInv (g : Bool) (init : List Nat) (st : AnimState) : Prop where
  nodup : (st.registry.map fun r => r.id).Nodup
  pnodup : st.processedIds.Nodup
  procG : ∀ r ∈ st.registry, r.id ∈ st.processedIds → r.run_round = g
  initG : ∀ r ∈ st.registry, r.id ∈ init → r.run_round = g → r.id ∈ st.processedIds
  bound : ∀ r ∈ st.registry, r.id < st.next_id
  initBound : ∀ i ∈ init, i < st.next_id
  rr : st.run_round = g

/-- Step of the frame invariant: the target state keeps it whenever the
source state had it. -/
def InvStep (g : Bool) (init : List Nat) (s t : AnimState) : Prop :=
  FrameInv g init s → FrameInv g init t

theorem invStep_refl (g : Bool) (init : List Nat) (s : AnimState) : InvStep g init s s :=
  fun h => h

theorem invStep_trans {g : Bool} {init : List Nat} {s t u : AnimState}
    (h1 : InvStep g init s t) (h2 : InvStep g init t u) : InvStep g init s u :=
  fun h => h2 (h1 h)

theorem invStep_ite {g : Bool} {init : List Nat} {c : Prop} [Decidable c]
    {s t u : AnimState} (hf : InvStep g init s t) (hg : InvStep g init s u) :
    InvStep g init s (if c then t else u) := by
  split <;> assumption

/-- A step that shrinks the registry to a sublist and keeps the counter,
parity and the visited list preserves the frame invariant. -/
theorem inv_of_sublist {g : Bool} {init : List Nat} {s t : AnimState}
    (hsub : t.registry.Sublist s.registry) (hp : t.processedIds = s.processedIds)
    (hn : t.next_id = s.next_id) (hrr : t.run_round = s.run_round)
    (h : FrameInv g init s) : FrameInv g init t := by
  constructor
  · exact h.nodup.sublist (hsub.map _)
  · rw [hp]; exact h.pnodup
  · intro r hr hpid
    rw [hp] at hpid
    exact h.procG r (hsub.subset hr) hpid
  · intro r hr hin hg2
    rw [hp]
    exact h.initG r (hsub.subset hr) hin hg2
  · intro r hr
    rw [hn]
    exact h.bound r (hsub.subset hr)
  · intro i hi
    rw [hn]
    exact h.initBound i hi
  · rw [hrr]; exact h.rr

theorem invStep_pushEvent (g : Bool) (init : List Nat) (e : Event) (s : AnimState) :
    InvStep g init s (pushEvent e s) :=
  fun h => inv_of_sublist (t := pushEvent e s) (List.Sublist.refl s.registry) rfl rfl rfl h

theorem invStep_markChange (g : Bool) (init : List Nat) (s : AnimState) :
    InvStep g init s (markChange s) :=
  fun h => inv_of_sublist (t := markChange s) (List.Sublist.refl s.registry) rfl rfl rfl h

theorem invStep_removeNode (g : Bool) (init : List Nat) (i : Nat) (s : AnimState) :
    InvStep g init s (removeNode i s) :=
  fun h => inv_of_sublist (List.filter_sublist _) rfl rfl rfl h

theorem invStep_del (g : Bool) (init : List Nat) (s : AnimState) (v c : Nat) :
    InvStep g init s (lvAnimDel s v c) := by
  unfold lvAnimDel
  split
  · exact invStep_refl g init s
  · exact fun h => inv_of_sublist (List.filter_sublist _) rfl rfl rfl h

theorem invStep_delAll (g : Bool) (init : List Nat) (s : AnimState) :
    InvStep g init s (lvAnimDelAll s) :=
  fun h => inv_of_sublist (t := lvAnimDelAll s) (List.nil_sublist s.registry) rfl rfl rfl h

theorem invStep_delPhase (g : Bool) (init : List Nat) (s : AnimState) (a : AnimRec) :
    InvStep g init s (delPhase s a) := by
  unfold delPhase
  split
  · exact invStep_del g init s a.var a.exec_cb
  · exact invStep_refl g init s

theorem updateById_ids (reg : List AnimRec) (i : Nat) (f : AnimRec → AnimRec)
    (hf : ∀ r, (f r).id = r.id) :
    (updateById reg i f).map (fun r => r.id) = reg.map fun r => r.id := by
  unfold updateById
  rw [List.map_map]
  apply List.map_congr_left
  intro r _
  by_cases hc : r.id = i <;> simp [hc, Function.comp, hf r]

theorem invStep_regUpdate (g : Bool) (init : List Nat) (i : Nat)
    (f : AnimRec → AnimRec) (s : AnimState)
    (hf : ∀ r, (f r).id = r.id ∧ (f r).run_round = r.run_round) :
    InvStep g init s (regUpdate i f s) := by
  intro h
  have hmem : ∀ r' ∈ (regUpdate i f s).registry,
      ∃ r ∈ s.registry, r'.id = r.id ∧ r'.run_round = r.run_round := by
    intro r' hr'
    rcases List.mem_map.mp hr' with ⟨r, hr, he⟩
    refine ⟨r, hr, ?_⟩
    by_cases hc : r.id = i
    · rw [← he]; simp [hc, (hf r).1, (hf r).2]
    · rw [← he]; simp [hc]
  constructor
  · show (updateById s.registry i f).map (fun r => r.id) |>.Nodup
    rw [updateById_ids s.registry i f fun r => (hf r).1]
    exact h.nodup
  · exact h.pnodup
  · intro r' hr' hpid
    rcases hmem r' hr' with ⟨r, hr, hid, hrr2⟩
    rw [hrr2]
    exact h.procG r hr (hid ▸ hpid)
  · intro r' hr' hin hg2
    rcases hmem r' hr' with ⟨r, hr, hid, hrr2⟩
    rw [hid]
    exact h.initG r hr (hid ▸ hin) (hrr2 ▸ hg2)
  · intro r' hr'
    rcases hmem r' hr' with ⟨r, hr, hid, _⟩
    rw [hid]
    exact h.bound r hr
  · exact h.initBound
  · exact h.rr

theorem storedOf_id (env : Env) (st : AnimState) (a : AnimRec) :
    (storedOf env st a).id = st.next_id := by
  simp only [storedOf]
  split <;> rfl

theorem invStep_insStored (g : Bool) (init : List Nat) (env : Env)
    (s : AnimState) (a : AnimRec) :
    InvStep g init s (insHead (storedOf env s a) s) := by
  intro h
  constructor
  · show ((storedOf env s a :: s.registry).map fun r => r.id).Nodup
    rw [List.map_cons, List.nodup_cons]
    refine ⟨?_, h.nodup⟩
    intro hmemid
    rcases List.mem_map.mp hmemid with ⟨r, hr, he⟩
    have := h.bound r hr
    rw [storedOf_id] at he
    omega
  · exact h.pnodup
  · intro r hr hpid
    rcases List.mem_cons.mp hr with rfl | hr2
    · rw [storedOf_run_round]; exact h.rr
    · exact h.procG r hr2 hpid
  · intro r hr hin hg2
    rcases List.mem_cons.mp hr with rfl | hr2
    · exfalso
      have h5 := h.initBound _ hin
      rw [storedOf_id] at h5
      omega
    · exact h.initG r hr2 hin hg2
  · intro r hr
    rcases List.mem_cons.mp hr with rfl | hr2
    · show (storedOf env s a).id < s.next_id + 1
      rw [storedOf_id]
      omega
    · show r.id < s.next_id + 1
      have := h.bound r hr2
      omega
  · intro i hi
    show i < s.next_id + 1
    have := h.initBound i hi
    omega
  · exact h.rr

theorem invStep_start (g : Bool) (init : List Nat) (env : Env) (ok : Bool)
    (s : AnimState) (a : AnimRec) : InvStep g init s (lvAnimStart env ok s a) := by
  refine invStep_trans (invStep_delPhase g init s a) ?_
  simp only [lvAnimStart]
  apply invStep_ite
  · refine invStep_trans (invStep_insStored g init env (delPhase s a) a) ?_
    refine invStep_trans (invStep_ite (invStep_pushEvent g init _ _)
      (invStep_refl g init _)) (invStep_markChange g init _)
  · exact invStep_refl g init _

theorem invStep_apiCall (g : Bool) (init : List Nat) (env : Env) (s : AnimState)
    (c : ApiCall) : InvStep g init s (applyApiCall env s c) := by
  cases c with
  | del v cb => exact invStep_del g init s v cb
  | delAll => exact invStep_delAll g init s
  | start a ok => exact invStep_start g init env ok s a

theorem invStep_apiCalls (g : Bool) (init : List Nat) (env : Env) (cs : List ApiCall)
    (s : AnimState) : InvStep g init s (applyApiCalls env s cs) := by
  induction cs generalizing s with
  | nil => exact invStep_refl g init s
  | cons c cs ih =>
    exact invStep_trans (invStep_apiCall g init env s c) (ih (applyApiCall env s c))

theorem invStep_ready (g : Bool) (init : List Nat) (env : Env) (s : AnimState)
    (a : AnimRec) : InvStep g init s (animReadyHandler env s a) := by
  simp only [animReadyHandler]
  refine invStep_trans (invStep_regUpdate g init (decRec a).id
    (fun r => { r with repeat_cnt := (decRec a).repeat_cnt }) s fun r => ⟨rfl, rfl⟩) ?_
  apply invStep_ite
  · apply invStep_ite
    · exact invStep_trans (invStep_removeNode g init _ _)
        (invStep_trans (invStep_pushEvent g init _ _) (invStep_apiCalls g init env _ _))
    · exact invStep_removeNode g init _ _
  · exact invStep_regUpdate g init _ _ _ fun r => by
      simp only [restartRec]; split <;> exact ⟨rfl, rfl⟩

theorem invStep_tickSetup (g : Bool) (init : List Nat) (env : Env) (elaps : Int)
    (a : AnimRec) (s : AnimState) : InvStep g init s (tickSetup env elaps a s) := by
  simp only [tickSetup]
  apply invStep_ite
  · have h1 : InvStep g init s (if a.early_apply = false ∧ a.get_value_cb ≠ 0 then
        regUpdate (ofsRec env elaps a).id
          (fun r => { r with start_value := (ofsRec env elaps a).start_value,
                             end_value := (ofsRec env elaps a).end_value }) s
      else s) :=
      invStep_ite (invStep_regUpdate g init _ _ s fun r => ⟨rfl, rfl⟩)
        (invStep_refl g init s)
    apply invStep_ite
    · exact invStep_trans h1 (invStep_trans (invStep_pushEvent g init _ _)
        (invStep_apiCalls g init env _ _))
    · exact h1
  · exact invStep_refl g init s

theorem invStep_applyStep (g : Bool) (init : List Nat) (env : Env) (a : AnimRec)
    (s : AnimState) : InvStep g init s (applyStep env a s) := by
  simp only [applyStep]
  apply invStep_ite
  · have h1 : InvStep g init s (regUpdate a.id
        (fun r => { r with current_value := pathValue a.path a }) s) :=
      invStep_regUpdate g init _ _ s fun r => ⟨rfl, rfl⟩
    apply invStep_ite
    · exact invStep_trans h1 (invStep_trans (invStep_pushEvent g init _ _)
        (invStep_apiCalls g init env _ _))
    · exact h1
  · exact invStep_refl g init s

theorem invStep_processTail (g : Bool) (init : List Nat) (env : Env) (elaps : Int)
    (a1 : AnimRec) (s : AnimState) : InvStep g init s (processTail env elaps a1 s) := by
  simp only [processTail]
  refine invStep_trans (invStep_tickSetup g init env elaps a1 s) ?_
  refine invStep_trans (invStep_regUpdate g init (advRec env elaps a1).id
    (fun r => { r with act_time := (advRec env elaps a1).act_time })
    (tickSetup env elaps a1 s) fun r => ⟨rfl, rfl⟩) ?_
  apply invStep_ite
  · refine invStep_trans (invStep_regUpdate g init (clampRec (advRec env elaps a1)).id
      (fun r => { r with act_time := (clampRec (advRec env elaps a1)).act_time })
      _ fun r => ⟨rfl, rfl⟩) ?_
    refine invStep_trans (invStep_applyStep g init env (clampRec (advRec env elaps a1)) _) ?_
    apply invStep_ite
    · exact invStep_ready g init env _ _
    · exact invStep_refl g init _
  · exact invStep_refl g init _

theorem inv_flipState (g : Bool) (init : List Nat) (st : AnimState) (a : AnimRec)
    (hmem : a ∈ st.registry) (hra : a.run_round ≠ g) (h : FrameInv g init st) :
    FrameInv g init (flipState st a.id) := by
  have hnotp : a.id ∉ st.processedIds := fun hc => hra (h.procG a hmem hc)
  have hchar : ∀ r' ∈ (flipState st a.id).registry,
      ∃ r ∈ st.registry,
        r' = if r.id = a.id then { r with run_round := st.run_round } else r := by
    intro r' hr'
    rcases List.mem_map.mp hr' with ⟨r, hr, he⟩
    exact ⟨r, hr, he.symm⟩
  constructor
  · show (updateById st.registry a.id _).map (fun r => r.id) |>.Nodup
    rw [updateById_ids st.registry a.id
      (fun r => { r with run_round := st.run_round }) fun r => rfl]
    exact h.nodup
  · exact List.nodup_cons.mpr ⟨hnotp, h.pnodup⟩
  · intro r' hr' hpid
    rcases hchar r' hr' with ⟨r, hr, he⟩
    by_cases hc : r.id = a.id
    · rw [he, if_pos hc]
      exact h.rr
    · rw [he, if_neg hc]
      rw [he, if_neg hc] at hpid
      rcases List.mem_cons.mp hpid with heq | hp2
      · exact absurd heq hc
      · exact h.procG r hr hp2
  · intro r' hr' hin hg2
    rcases hchar r' hr' with ⟨r, hr, he⟩
    by_cases hc : r.id = a.id
    · rw [he, if_pos hc]
      exact List.mem_cons.mpr (Or.inl hc)
    · rw [he, if_neg hc] at hin hg2 ⊢
      exact List.mem_cons.mpr (Or.inr (h.initG r hr hin hg2))
  · intro r' hr'
    rcases hchar r' hr' with ⟨r, hr, he⟩
    have hb := h.bound r hr
    by_cases hc : r.id = a.id
    · rw [he, if_pos hc]
      exact hb
    · rw [he, if_neg hc]
      exact hb
  · exact h.initBound
  · exact h.rr

theorem inv_processAnim (g : Bool) (init : List Nat) (env : Env) (elaps : Int)
    (st : AnimState) (a : AnimRec) (hmem : a ∈ st.registry) (hra : a.run_round ≠ g)
    (h : FrameInv g init st) : FrameInv g init (processAnim env elaps st a) :=
  invStep_processTail g init env elaps { a with run_round := st.run_round }
    (flipState st a.id) (inv_flipState g init st a hmem hra h)

/-- The first k walk positions hold records already carrying the frame
parity (they were advanced, or inserted with it). -/
def Prefix0 (st : AnimState) (k : Nat) (g : Bool) : Prop :=
  ∀ j, j < k → ∀ r, st.registry[j]? = some r → r.run_round = g

theorem prefix0_after_proc (g : Bool) (st0 : AnimState) (k : Nat) (a : AnimRec)
    (hrr : st0.run_round = g) (hk : st0.registry[k]? = some a)
    (hpre : Prefix0 st0 k g) (t : AnimState)
    (hproj : proj t = proj (flipState st0 a.id)) :
    Prefix0 t (k + 1) g := by
  intro j hj r hr
  have h1 : (proj t)[j]? = some (r.id, r.run_round) := by
    unfold proj
    rw [List.getElem?_map, hr]
    rfl
  rw [hproj] at h1
  unfold proj flipState updateById at h1
  rw [List.map_map, List.getElem?_map] at h1
  cases hj0 : st0.registry[j]? with
  | none =>
    rw [hj0] at h1
    simp at h1
  | some r0 =>
    rw [hj0] at h1
    rw [Option.map_some'] at h1
    have h2 := Option.some.inj h1
    have hsnd : ((if r0.id = a.id then ({ r0 with run_round := st0.run_round } : AnimRec)
        else r0).run_round) = r.run_round := congrArg Prod.snd h2
    by_cases hc : r0.id = a.id
    · rw [if_pos hc] at hsnd
      rw [← hsnd]
      exact hrr
    · rw [if_neg hc] at hsnd
      rw [← hsnd]
      rcases Nat.lt_or_ge j k with hjk | hjk
      · exact hpre j hjk r0 hj0
      · have hjeq : j = k := by omega
        subst hjeq
        rw [hk] at hj0
        cases hj0
        exact absurd rfl hc

/-- Core induction of the frame pass: walking the registry from position k
with the frame invariant and an already-processed prefix ends with the
invariant intact and every live record carrying the frame parity. -/
theorem timerLoop_main (env : Env) (elaps : Int) (g : Bool) (init : List Nat) :
    ∀ u d st k, unproc st ≤ u → st.registry.length ≤ d + k →
      FrameInv g init st → Prefix0 st k g →
      FrameInv g init (timerLoop env elaps st k)
        ∧ ∀ r ∈ (timerLoop env elaps st k).registry, r.run_round = g := by
  intro u
  induction u using Nat.strong_induction_on with
  | _ u ihu =>
    intro d
    induction d with
    | zero =>
      intro st k h1 h2 h3 h4
      have hnone : st.registry[k]? = none := List.getElem?_eq_none_iff.mpr (by omega)
      rw [timerLoop_none env elaps st k hnone]
      refine ⟨h3, ?_⟩
      intro r hrm
      rcases List.mem_iff_getElem?.mp hrm with ⟨j, hj⟩
      have hjlen : j < st.registry.length := (List.getElem?_eq_some_iff.mp hj).1
      exact h4 j (by omega) r hj
    | succ d ihd =>
      intro st k h1 h2 h3 h4
      cases hk : st.registry[k]? with
      | none =>
        rw [timerLoop_none env elaps st k hk]
        refine ⟨h3, ?_⟩
        intro r hrm
        rcases List.mem_iff_getElem?.mp hrm with ⟨j, hj⟩
        have hjlen : j < st.registry.length := (List.getElem?_eq_some_iff.mp hj).1
        have hklen : st.registry.length ≤ k := List.getElem?_eq_none_iff.mp hk
        exact h4 j (by omega) r hj
      | some a =>
        have hmem : a ∈ st.registry := List.getElem?_mem hk
        by_cases hr : a.run_round = st.run_round
        · rw [timerLoop_skip env elaps st k a hk hr]
          refine ihd { st with list_changed := false } (k + 1) h1
            (show st.registry.length ≤ d + (k + 1) by omega)
            (inv_of_sublist (t := { st with list_changed := false })
              (List.Sublist.refl st.registry) rfl rfl rfl h3) ?_
          intro j hj r hrj
          have hrj2 : st.registry[j]? = some r := hrj
          rcases Nat.lt_or_ge j k with hjk | hjk
          · exact h4 j hjk r hrj2
          · have hjeq : j = k := by omega
            subst hjeq
            rw [hk] at hrj2
            cases hrj2
            rw [hr]
            exact h3.rr
        · rw [timerLoop_proc env elaps st k a hk hr]
          have h3x : FrameInv g init { st with list_changed := false } :=
            inv_of_sublist (t := { st with list_changed := false })
              (List.Sublist.refl st.registry) rfl rfl rfl h3
          have hmem2 : a ∈ ({ st with list_changed := false } : AnimState).registry := hmem
          have hra : a.run_round ≠ g := fun hc => hr (hc.trans h3.rr.symm)
          have hinv1 : FrameInv g init
              (processAnim env elaps { st with list_changed := false } a) :=
            inv_processAnim g init env elaps _ a hmem2 hra h3x
          have hlt : unproc (processAnim env elaps { st with list_changed := false } a)
              < unproc st :=
            unproc_processAnim_lt env elaps { st with list_changed := false } a hmem2
              fun hc => hr hc
          set st1 := processAnim env elaps { st with list_changed := false } a with hst1
          split
          · exact ihu (unproc st1) (by omega) st1.registry.length st1 0 (le_refl _)
              (by omega) hinv1 fun j hj r hrj => absurd hj (Nat.not_lt_zero j)
          · rename_i hflag
            have hflag2 : st1.list_changed = false := by
              simpa using hflag
            have hproj : proj st1
                = proj (flipState { st with list_changed := false } a.id) :=
              ((tame_processAnim env elaps { st with list_changed := false } a) hflag2).2
            have hpre : Prefix0 st1 (k + 1) g :=
              prefix0_after_proc g { st with list_changed := false } k a h3.rr hk h4
                st1 hproj
            exact ihu (unproc st1) (by omega) st1.registry.length st1 (k + 1) (le_refl _)
              (by omega) hinv1 hpre

/-- Claim C2: during one anim_timer invocation each record is
time-advanced at most once (the ghost visited list has no duplicates);
whenever a callback mutates the registry the walk resumes from the current
head (the definition of timerLoop) and the parity bit keeps re-processing
away; the pass terminates (timerLoop is total) and visits every record
that is live at the start and still live at the end exactly once
(such a record's identity is on the visited list, which has no
duplicates); and the registry is left consistent: identities stay unique
and every surviving record carries the frame's parity. -/
theorem anim_timer_single_advance (env : Env) (elaps : Int) (st : AnimState)
    (hnd : (st.registry.map fun r => r.id).Nodup)
    (hpar : ∀ r ∈ st.registry, r.run_round = st.run_round)
    (hbnd : ∀ r ∈ st.registry, r.id < st.next_id) :
    (animTimer env elaps st).processedIds.Nodup
    ∧ (∀ r ∈ st.registry, (∃ r2 ∈ (animTimer env elaps st).registry, r2.id = r.id) →
        r.id ∈ (animTimer env elaps st).processedIds)
    ∧ ((animTimer env elaps st).registry.map fun r => r.id).Nodup
    ∧ ∀ r ∈ (animTimer env elaps st).registry,
        r.run_round = (animTimer env elaps st).run_round := by
  have hinv : FrameInv (!st.run_round) (st.registry.map fun r => r.id)
      { st with run_round := !st.run_round, processedIds := [] } := by
    constructor
    · exact hnd
    · exact List.nodup_nil
    · exact fun r _ hp => absurd hp (List.not_mem_nil _)
    · intro r hrm _ hg
      rw [hpar r hrm] at hg
      exact absurd hg (by simp)
    · exact hbnd
    · intro i hi
      rcases List.mem_map.mp hi with ⟨r, hrm, he⟩
      rw [← he]
      exact hbnd r hrm
    · rfl
  have hmain := timerLoop_main env elaps (!st.run_round) (st.registry.map fun r => r.id)
    (unproc { st with run_round := !st.run_round, processedIds := [] })
    st.registry.length
    { st with run_round := !st.run_round, processedIds := [] } 0 (le_refl _)
    (show st.registry.length ≤ st.registry.length + 0 by omega) hinv
    (fun j hj r hrj => absurd hj (Nat.not_lt_zero j))
  unfold animTimer
  refine ⟨hmain.1.pnodup, ?_, hmain.1.nodup, ?_⟩
  · intro r hrm hex
    rcases hex with ⟨r2, hr2, hid⟩
    have hg : r2.run_round = !st.run_round := hmain.2 r2 hr2
    have hin : r2.id ∈ st.registry.map fun r => r.id := by
      rw [hid]
      exact List.mem_map.mpr ⟨r, hrm, rfl⟩
    have := hmain.1.initG r2 hr2 hin hg
    rw [hid] at this
    exact this
  · intro r hrm
    rw [hmain.1.rr]
    exact hmain.2 r hrm

/-- Callback environment whose callbacks touch nothing. -/
def env0 : Env where
  execEff := fun _ _ _ => []
  startEff := fun _ _ => []
  readyEff := fun _ _ => []
  getValue := fun _ _ => 0

/-- Callback environment where the ready callback with identity 7 cancels
the animation (var 2, exec_cb 9) - a mid-pass registry mutation. -/
def env1 : Env where
  execEff := fun _ _ _ => []
  startEff := fun _ _ => []
  readyEff := fun cb _ => if cb = 7 then [ApiCall.del 2 9] else []
  getValue := fun _ _ => 0

/-- Concrete record: finishes this frame and, through ready callback 7,
cancels recB. -/
def recA : AnimRec :=
  { zeroRec with id := 0, var := 1, exec_cb := 3, ready_cb := 7, repeat_cnt := 1,
                 time := 10, act_time := 0, start_value := 0, end_value := 100,
                 path := some PathKind.linear }

/-- Concrete record: the victim recA's ready callback cancels. -/
def recB : AnimRec :=
  { zeroRec with id := 1, var := 2, exec_cb := 9, repeat_cnt := 1, time := 50,
                 path := some PathKind.linear }

/-- Concrete two-record registry for the frame-pass witness. -/
def stC2 : AnimState :=
  { registry := [recA, recB], run_round := false, list_changed := false,
    next_id := 2, events := [], processedIds := [] }

/-- Witness for C2: the frame-pass theorem applied to a concrete registry
in which the first record's ready callback cancels the second mid-pass. -/
theorem anim_timer_single_advance_witness :
    (animTimer env1 10 stC2).processedIds.Nodup
    ∧ (∀ r ∈ stC2.registry, (∃ r2 ∈ (animTimer env1 10 stC2).registry, r2.id = r.id) →
        r.id ∈ (animTimer env1 10 stC2).processedIds)
    ∧ ((animTimer env1 10 stC2).registry.map fun r => r.id).Nodup
    ∧ ∀ r ∈ (animTimer env1 10 stC2).registry,
        r.run_round = (animTimer env1 10 stC2).run_round :=
  anim_timer_single_advance env1 10 stC2 (by decide) (by decide) (by decide)

theorem storedOf_var (env : Env) (st : AnimState) (a : AnimRec) :
    (storedOf env st a).var = a.var := by
  simp only [storedOf]
  split <;> rfl

theorem storedOf_exec_cb (env : Env) (st : AnimState) (a : AnimRec) :
    (storedOf env st a).exec_cb = a.exec_cb := by
  simp only [storedOf]
  split <;> rfl

theorem delPhase_pos (st : AnimState) (a : AnimRec) (h : a.exec_cb ≠ 0) :
    delPhase st a = lvAnimDel st a.var a.exec_cb := by
  unfold delPhase
  rw [if_pos h]

theorem delPhase_neg (st : AnimState) (a : AnimRec) (h : a.exec_cb = 0) :
    delPhase st a = st := by
  unfold delPhase
  rw [if_neg (by simp [h])]

/-- Registry shape after a successful lv_anim_start: the stored record in
front of the duplicate-suppressed previous registry. -/
theorem lvAnimStart_true_registry (env : Env) (st : AnimState) (a : AnimRec) :
    (lvAnimStart env true st a).registry
      = storedOf env (delPhase st a) a :: (delPhase st a).registry := by
  simp only [lvAnimStart]
  rw [if_pos trivial]
  split <;> rfl

/-- After lv_anim_del with a non-wildcard callback, no record of the
(var, exec_cb) pair remains. -/
theorem lvAnimDel_pair_gone (st : AnimState) (v c : Nat) :
    (lvAnimDel st v c).registry.filter (fun r => r.var == v && r.exec_cb == c) = [] := by
  unfold lvAnimDel
  split
  · rename_i hall
    rw [List.filter_eq_nil_iff]
    intro r hrm hp
    have hkeep := List.all_eq_true.mp hall r hrm
    unfold delKeep at hkeep
    simp only [Bool.and_eq_true, beq_iff_eq] at hp
    simp [hp.1, hp.2] at hkeep
  · rw [List.filter_filter, List.filter_eq_nil_iff]
    intro r _ hp
    simp only [Bool.and_eq_true, beq_iff_eq, delKeep] at hp
    rcases hp with ⟨⟨h1, h2⟩, h3⟩
    simp [h1, h2] at h3

/-- Claim C1 (amended): starting an animation with a non-NULL exec_cb
removes every record of the same (var, exec_cb) pair before inserting the
new one, leaving exactly one live record of that pair; with a NULL
exec_cb, however, lv_anim_start performs no deletion at all - the new
record is simply inserted in front of the untouched registry (the code
guards the lv_anim_del call precisely to avoid the wildcard's delete-all
semantics). -/
theorem lv_anim_start_duplicate_suppression (env : Env) (st : AnimState) (a : AnimRec) :
    (a.exec_cb ≠ 0 →
      ((lvAnimStart env true st a).registry.filter
        (fun r => r.var == a.var && r.exec_cb == a.exec_cb)).length = 1)
    ∧ (a.exec_cb = 0 →
      (lvAnimStart env true st a).registry = storedOf env st a :: st.registry) := by
  constructor
  · intro hcb
    rw [lvAnimStart_true_registry, delPhase_pos st a hcb]
    rw [List.filter_cons_of_pos (by
      simp [storedOf_var, storedOf_exec_cb])]
    rw [List.length_cons, lvAnimDel_pair_gone st a.var a.exec_cb]
    rfl
  · intro hcb
    rw [lvAnimStart_true_registry, delPhase_neg st a hcb]

/-- Record living in the registry before the C1 counterexample start. -/
def recC1 : AnimRec := { zeroRec with id := 0, var := 1, exec_cb := 5, time := 100 }

/-- One-record registry for the C1 counterexample. -/
def stC1 : AnimState :=
  { registry := [recC1], run_round := false, list_changed := false,
    next_id := 1, events := [], processedIds := [] }

/-- Descriptor submitted with the NULL (wildcard) exec_cb. -/
def descC1 : AnimRec := { zeroRec with var := 1, exec_cb := 0, time := 100 }

/-- Counterexample for C1: submitting a record for var 1 with exec_cb NULL
does not remove the existing record of var 1 - no wildcard delete-all
happens on insertion, contradicting the claim's second half. -/
theorem lv_anim_start_wildcard_counterexample :
    descC1.exec_cb = 0
    ∧ recC1.var = descC1.var
    ∧ recC1 ∈ (lvAnimStart env0 true stC1 descC1).registry
    ∧ ((lvAnimStart env0 true stC1 descC1).registry.filter
        (fun r => r.var == descC1.var)).length = 2 := by decide

/-- Claim C5 (amended): when the node allocation fails, lv_anim_start
returns without crashing and the submission is abandoned - nothing is
inserted, the allocation counter and trace are untouched - but the
registry is not entirely unchanged: the duplicate-suppression deletion of
line 98 already ran, so records matching the submitted (var, exec_cb) with
a non-NULL exec_cb are already gone when the allocation fails. -/
theorem lv_anim_start_alloc_fail (env : Env) (st : AnimState) (a : AnimRec) :
    lvAnimStart env false st a = delPhase st a
    ∧ (lvAnimStart env false st a).registry.length ≤ st.registry.length
    ∧ (lvAnimStart env false st a).next_id = st.next_id
    ∧ (lvAnimStart env false st a).events = st.events := by
  have h1 : lvAnimStart env false st a = delPhase st a := by
    simp only [lvAnimStart]
    rw [if_neg (by simp)]
  refine ⟨h1, ?_, ?_, ?_⟩ <;> rw [h1]
  · unfold delPhase
    split
    · unfold lvAnimDel
      split
      · exact le_refl _
      · exact List.Sublist.length_le (List.filter_sublist _)
    · exact le_refl _
  · unfold delPhase
    split
    · unfold lvAnimDel
      split <;> rfl
    · rfl
  · unfold delPhase
    split
    · unfold lvAnimDel
      split <;> rfl
    · rfl

/-- Descriptor of the same (var, exec_cb) pair as recC1, submitted while
allocation fails. -/
def descC5 : AnimRec := { zeroRec with var := 1, exec_cb := 5, time := 100 }

/-- Counterexample for C5: with the record (var 1, exec_cb 5) live and the
same pair submitted under allocation failure, lv_anim_start leaves the
registry empty - a previously existing record was removed even though the
submission was abandoned, contradicting "no previously existing record is
removed". -/
theorem lv_anim_start_alloc_fail_counterexample :
    (lvAnimStart env0 false stC1 descC5).registry = [] ∧ stC1.registry ≠ [] := by decide

/-- Claim C7 (amended): registry iteration (the _lv_ll_get_head /
_lv_ll_get_next order used by anim_timer and lv_anim_get) visits records
in reverse insertion order, most recently started first: lv_anim_start
inserts with _lv_ll_ins_head, so after a successful start the stored
record is the head of the iteration and all previously live records
follow it with their order unchanged. -/
theorem registry_iteration_order (env : Env) (st : AnimState) (a : AnimRec) :
    (lvAnimStart env true st a).registry.head?
      = some (storedOf env (delPhase st a) a)
    ∧ (lvAnimStart env true st a).registry.tail = (delPhase st a).registry
    ∧ (storedOf env (delPhase st a) a).id = st.next_id := by
  refine ⟨?_, ?_, ?_⟩
  · rw [lvAnimStart_true_registry]
    rfl
  · rw [lvAnimStart_true_registry]
    rfl
  · rw [storedOf_id]
    unfold delPhase
    split
    · unfold lvAnimDel
      split <;> rfl
    · rfl

/-- Empty registry fixture. -/
def stEmpty : AnimState :=
  { registry := [], run_round := false, list_changed := false,
    next_id := 0, events := [], processedIds := [] }

/-- First-started descriptor of the C7 counterexample. -/
def descA7 : AnimRec := { zeroRec with var := 1, exec_cb := 5, time := 100 }

/-- Second-started descriptor of the C7 counterexample. -/
def descB7 : AnimRec := { zeroRec with var := 2, exec_cb := 5, time := 100 }

/-- Counterexample for C7: starting descA7 (taking identity 0) and then
descB7 (identity 1) yields the iteration order [1, 0] - the most recently
started record first - not the claimed earliest-started-first [0, 1]. -/
theorem registry_iteration_order_counterexample :
    ((lvAnimStart env0 true (lvAnimStart env0 true stEmpty descA7) descB7).registry.map
      fun r => r.id) = [1, 0]
    ∧ ([1, 0] : List Nat) ≠ [0, 1] := by decide

theorem lvMap_high (x min_in max_in min_out max_out : Int) (h : max_in ≤ x) :
    lvMap x min_in max_in min_out max_out = max_out := by
  unfold lvMap
  rw [if_pos h]

theorem lvMap_low (x min_in max_in min_out max_out : Int)
    (h1 : x ≤ min_in) (h2 : ¬max_in ≤ x) :
    lvMap x min_in max_in min_out max_out = min_out := by
  unfold lvMap
  rw [if_neg h2, if_pos h1]

theorem lvBezier3_at_top (u0 u1 u2 u3 : Nat) : lvBezier3 1024 u0 u1 u2 u3 = u3 := by
  simp only [lvBezier3]
  norm_num

theorem ashr10_cancel (d : Int) : ashr (1024 * d) 10 = d := by
  unfold ashr
  exact Int.mul_fdiv_cancel_left d (by norm_num)

theorem ashr_zero : ashr 0 10 = 0 := by
  unfold ashr
  exact Int.zero_fdiv _

theorem lvAnimPathLinear_at_end (a : AnimRec) (h : a.time ≤ a.act_time) :
    lvAnimPathLinear a = a.end_value := by
  simp only [lvAnimPathLinear]
  rw [lvMap_high _ _ _ _ _ h, ashr10_cancel]
  omega

theorem lvAnimPathLinear_at_start (a : AnimRec) (ht : 0 < a.time) (h : a.act_time ≤ 0) :
    lvAnimPathLinear a = a.start_value := by
  simp only [lvAnimPathLinear]
  rw [lvMap_low _ _ _ _ _ h (by omega)]
  rw [show (0 : Int) * (a.end_value - a.start_value) = 0 by ring, ashr_zero]
  omega

theorem lvAnimPathStep_at_end (a : AnimRec) (h : a.time ≤ a.act_time) :
    lvAnimPathStep a = a.end_value := by
  unfold lvAnimPathStep
  rw [if_pos h]

theorem lvAnimPathStep_at_start (a : AnimRec) (ht : 0 < a.time) (h : a.act_time ≤ 0) :
    lvAnimPathStep a = a.start_value := by
  unfold lvAnimPathStep
  rw [if_neg (by omega)]

theorem bezier_path_at_end (a : AnimRec) (h : a.time ≤ a.act_time) (u1 u2 : Nat) :
    ashr ((lvBezier3 (lvMap a.act_time 0 a.time 0 1024).toNat 0 u1 u2 1024 : Int)
      * (a.end_value - a.start_value)) 10 + a.start_value = a.end_value := by
  rw [lvMap_high _ _ _ _ _ h]
  rw [show ((1024 : Int)).toNat = 1024 from rfl, lvBezier3_at_top]
  rw [show ((1024 : Nat) : Int) = 1024 from rfl, ashr10_cancel]
  omega

theorem lvAnimPathEaseIn_at_end (a : AnimRec) (h : a.time ≤ a.act_time) :
    lvAnimPathEaseIn a = a.end_value := by
  simp only [lvAnimPathEaseIn]
  exact bezier_path_at_end a h 50 100

theorem lvAnimPathEaseOut_at_end (a : AnimRec) (h : a.time ≤ a.act_time) :
    lvAnimPathEaseOut a = a.end_value := by
  simp only [lvAnimPathEaseOut]
  exact bezier_path_at_end a h 900 950

theorem lvAnimPathEaseInOut_at_end (a : AnimRec) (h : a.time ≤ a.act_time) :
    lvAnimPathEaseInOut a = a.end_value := by
  simp only [lvAnimPathEaseInOut]
  exact bezier_path_at_end a h 50 952

theorem lvAnimPathOvershoot_at_end (a : AnimRec) (h : a.time ≤ a.act_time) :
    lvAnimPathOvershoot a = a.end_value := by
  simp only [lvAnimPathOvershoot]
  exact bezier_path_at_end a h 1000 1300

theorem lvAnimPathBounce_at_end (a : AnimRec) (h : a.time ≤ a.act_time) :
    lvAnimPathBounce a = a.end_value := by
  simp only [lvAnimPathBounce]
  rw [lvMap_high _ _ _ _ _ h]
  norm_num
  rw [show Int.toNat 1024 = 1024 from rfl]
  rw [show lvBezier3 1024 1024 800 500 0 = 0 from lvBezier3_at_top 1024 800 500 0]
  rw [show ((0 : Nat) : Int) = 0 from rfl]
  rw [show (0 : Int) * Int.tdiv (a.end_value - a.start_value) 40 = 0 by ring, ashr_zero]

/-- Claim C6: each built-in path function is a pure Lean function of the
record (purity, determinism and freedom from side effects hold by
construction of the embedding); for every record of positive duration,
evaluation at elapsed time at or beyond the duration returns exactly
end_value for every path kind, and the monotonic linear and step paths
return exactly start_value at non-positive elapsed time. -/
theorem path_boundary_values (k : PathKind) (a : AnimRec) (ht : 0 < a.time) :
    (a.time ≤ a.act_time → pathEvalK k a = a.end_value)
    ∧ (a.act_time ≤ 0 →
        pathEvalK PathKind.linear a = a.start_value
          ∧ pathEvalK PathKind.step a = a.start_value) := by
  constructor
  · intro h
    cases k with
    | linear => exact lvAnimPathLinear_at_end a h
    | easeIn => exact lvAnimPathEaseIn_at_end a h
    | easeOut => exact lvAnimPathEaseOut_at_end a h
    | easeInOut => exact lvAnimPathEaseInOut_at_end a h
    | overshoot => exact lvAnimPathOvershoot_at_end a h
    | bounce => exact lvAnimPathBounce_at_end a h
    | step => exact lvAnimPathStep_at_end a h
  · intro h
    exact ⟨lvAnimPathLinear_at_start a ht h, lvAnimPathStep_at_start a ht h⟩

/-- Record fixture for the C6 witness: halfway attributes with the elapsed
time already past the duration. -/
def recC6 : AnimRec :=
  { zeroRec with start_value := -7, end_value := 123, time := 200, act_time := 250 }

/-- Witness for C6: the boundary theorem applied to the bounce path at a
concrete record whose elapsed time exceeds its duration. -/
theorem path_boundary_values_witness :
    ((recC6.time ≤ recC6.act_time → pathEvalK PathKind.bounce recC6 = recC6.end_value)
      ∧ (recC6.act_time ≤ 0 →
          pathEvalK PathKind.linear recC6 = recC6.start_value
            ∧ pathEvalK PathKind.step recC6 = recC6.start_value))
    ∧ pathEvalK PathKind.bounce recC6 = 123 :=
  ⟨path_boundary_values PathKind.bounce recC6 (by decide),
   by decide⟩

/-- Claim C9 (amended): for positive speed and a distance small enough
that |start - end| * 1000 stays below 2 ^ 32, lv_anim_speed_to_time
returns |start - end| * 1000 / speed in integer arithmetic with a computed
0 rounded up to 1.  For larger distances the uint32 product wraps modulo
2 ^ 32 and the result deviates from that formula. -/
theorem lv_anim_speed_to_time_formula (speed : Nat) (s e : Int)
    (hs : 0 < speed) (hw : (s - e).natAbs * 1000 < 2 ^ 32) :
    lvAnimSpeedToTime speed s e
      = if (s - e).natAbs * 1000 / speed = 0 then 1
        else (s - e).natAbs * 1000 / speed := by
  have _hs := hs
  simp only [lvAnimSpeedToTime]
  rw [Nat.mod_eq_of_lt hw]

/-- Witness for C9: the amended formula at the spec's concrete instance,
speed 50 over the range 0..100, which computes 2000. -/
theorem lv_anim_speed_to_time_formula_witness :
    (lvAnimSpeedToTime 50 0 100
      = if ((0 : Int) - 100).natAbs * 1000 / 50 = 0 then 1
        else ((0 : Int) - 100).natAbs * 1000 / 50)
    ∧ lvAnimSpeedToTime 50 0 100 = 2000 :=
  ⟨lv_anim_speed_to_time_formula 50 0 100 (by decide) (by decide), by decide⟩

/-- Counterexample for C9: at speed 1 over 0..2147483647 (INT32_MAX) the
claimed formula gives 2147483647000, but the uint32 product wraps modulo
2 ^ 32 and lv_anim_speed_to_time returns 4294966296. -/
theorem lv_anim_speed_to_time_counterexample :
    lvAnimSpeedToTime 1 0 2147483647 = 4294966296
    ∧ (4294966296 : Nat) ≠ 2147483647 * 1000 / 1 := by decide

theorem updateById_updateById (reg : List AnimRec) (i : Nat) (f g : AnimRec → AnimRec)
    (hf : ∀ r, (f r).id = r.id) :
    updateById (updateById reg i f) i g = updateById reg i fun r => g (f r) := by
  unfold updateById
  rw [List.map_map]
  apply List.map_congr_left
  intro r _
  by_cases hc : r.id = i
  · simp [hc, Function.comp, hf r]
  · simp [hc, Function.comp]

theorem updateById_congr_of_mem (reg : List AnimRec) (i : Nat) (f g : AnimRec → AnimRec)
    (h : ∀ r ∈ reg, r.id = i → f r = g r) :
    updateById reg i f = updateById reg i g := by
  unfold updateById
  apply List.map_congr_left
  intro r hr
  by_cases hc : r.id = i
  · simp [hc, h r hr hc]
  · simp [hc]

theorem nodup_mem_id_eq {reg : List AnimRec}
    (hnd : (reg.map fun r => r.id).Nodup) {a r : AnimRec}
    (ha : a ∈ reg) (hr : r ∈ reg) (hid : r.id = a.id) : r = a :=
  List.inj_on_of_nodup_map hnd hr ha hid

theorem decRec_id (a : AnimRec) : (decRec a).id = a.id := by
  unfold decRec
  split <;> rfl

/-- Subtrace of ready-callback invocations, for the exactly-once facts. -/
def readyEvents (evs : List Event) : List Event :=
  evs.filter fun e =>
    match e with
    | Event.readyEv _ => true
    | _ => false

theorem readyEvents_exec (v : Nat) (x : Int) (evs : List Event) :
    readyEvents (Event.execEv v x :: evs) = readyEvents evs := rfl

theorem readyEvents_start (a : AnimRec) (evs : List Event) :
    readyEvents (Event.startEv a :: evs) = readyEvents evs := rfl

theorem readyEvents_ready (a : AnimRec) (evs : List Event) :
    readyEvents (Event.readyEv a :: evs) = Event.readyEv a :: readyEvents evs := rfl

theorem readyEvents_apiCall (env : Env) (s : AnimState) (c : ApiCall) :
    readyEvents (applyApiCall env s c).events = readyEvents s.events := by
  cases c with
  | del v cb =>
    show readyEvents (lvAnimDel s v cb).events = _
    unfold lvAnimDel
    split <;> rfl
  | delAll => rfl
  | start a ok =>
    show readyEvents (lvAnimStart env ok s a).events = _
    simp only [lvAnimStart]
    have hdel : readyEvents (delPhase s a).events = readyEvents s.events := by
      unfold delPhase
      split
      · unfold lvAnimDel
        split <;> rfl
      · rfl
    split
    · split
      · rw [show (markChange (pushEvent
          (Event.execEv (storedOf env (delPhase s a) a).var
            (storedOf env (delPhase s a) a).start_value)
          (insHead (storedOf env (delPhase s a) a) (delPhase s a)))).events
          = Event.execEv (storedOf env (delPhase s a) a).var
              (storedOf env (delPhase s a) a).start_value :: (delPhase s a).events from rfl]
        rw [readyEvents_exec]
        exact hdel
      · exact hdel
    · exact hdel

theorem readyEvents_apiCalls (env : Env) (cs : List ApiCall) (s : AnimState) :
    readyEvents (applyApiCalls env s cs).events = readyEvents s.events := by
  induction cs generalizing s with
  | nil => rfl
  | cons c cs ih =>
    exact (ih (applyApiCall env s c)).trans (readyEvents_apiCall env s c)

theorem readyEvents_applyStep (env : Env) (a : AnimRec) (s : AnimState) :
    readyEvents (applyStep env a s).events = readyEvents s.events := by
  simp only [applyStep]
  split
  · split
    · rw [readyEvents_apiCalls]
      exact readyEvents_exec _ _ _
    · rfl
  · rfl

theorem readyEvents_tickSetup (env : Env) (elaps : Int) (a : AnimRec) (s : AnimState) :
    readyEvents (tickSetup env elaps a s).events = readyEvents s.events := by
  simp only [tickSetup]
  split
  · split
    · rw [readyEvents_apiCalls]
      show readyEvents (Event.startEv (ofsRec env elaps a) :: _) = _
      rw [readyEvents_start]
      split <;> rfl
    · split <;> rfl
  · rfl

/-- Identity i is neither live nor reachable by a future allocation. -/
def Fresh (i : Nat) (s : AnimState) : Prop :=
  i ∉ (s.registry.map fun r => r.id) ∧ i < s.next_id

theorem fresh_apiCall (env : Env) (s : AnimState) (c : ApiCall) (i : Nat)
    (h : Fresh i s) : Fresh i (applyApiCall env s c) := by
  rcases h with ⟨h1, h2⟩
  cases c with
  | del v cb =>
    show Fresh i (lvAnimDel s v cb)
    unfold lvAnimDel
    split
    · exact ⟨h1, h2⟩
    · refine ⟨fun hc => h1 ?_, h2⟩
      rcases List.mem_map.mp hc with ⟨r, hr, he⟩
      exact List.mem_map.mpr ⟨r, (List.filter_sublist _).subset hr, he⟩
  | delAll =>
    show Fresh i (lvAnimDelAll s)
    exact ⟨by simp [lvAnimDelAll], h2⟩
  | start a ok =>
    show Fresh i (lvAnimStart env ok s a)
    have hdel : Fresh i (delPhase s a) := by
      unfold delPhase
      split
      · unfold lvAnimDel
        split
        · exact ⟨h1, h2⟩
        · refine ⟨fun hc => h1 ?_, h2⟩
          rcases List.mem_map.mp hc with ⟨r, hr, he⟩
          exact List.mem_map.mpr ⟨r, (List.filter_sublist _).subset hr, he⟩
      · exact ⟨h1, h2⟩
    simp only [lvAnimStart]
    split
    · rcases hdel with ⟨hd1, hd2⟩
      have hids : ∀ (x : AnimState), x = (if (storedOf env (delPhase s a) a).early_apply = true
            ∧ (storedOf env (delPhase s a) a).exec_cb ≠ 0
            ∧ (storedOf env (delPhase s a) a).var ≠ 0 then
          pushEvent (Event.execEv (storedOf env (delPhase s a) a).var
            (storedOf env (delPhase s a) a).start_value)
            (insHead (storedOf env (delPhase s a) a) (delPhase s a))
        else insHead (storedOf env (delPhase s a) a) (delPhase s a)) →
          (markChange x).registry = storedOf env (delPhase s a) a :: (delPhase s a).registry
            ∧ (markChange x).next_id = (delPhase s a).next_id + 1 := by
        intro x hx
        subst hx
        split <;> exact ⟨rfl, rfl⟩
      rcases hids _ rfl with ⟨hreg, hnext⟩
      constructor
      · rw [hreg]
        intro hc
        rcases List.mem_cons.mp (List.mem_map.mp hc).choose_spec.1 with hh | ht
        · have := (List.mem_map.mp hc).choose_spec.2
          rw [hh] at this
          rw [storedOf_id] at this
          omega
        · exact hd1 (List.mem_map.mpr ⟨(List.mem_map.mp hc).choose, ht,
            (List.mem_map.mp hc).choose_spec.2⟩)
      · rw [hnext]
        omega
    · exact hdel

theorem fresh_apiCalls (env : Env) (cs : List ApiCall) (s : AnimState) (i : Nat)
    (h : Fresh i s) : Fresh i (applyApiCalls env s cs) := by
  induction cs generalizing s with
  | nil => exact h
  | cons c cs ih => exact ih (applyApiCall env s c) (fresh_apiCall env s c i h)

theorem events_mono_apiCall (env : Env) (s : AnimState) (c : ApiCall) :
    ∀ e ∈ s.events, e ∈ (applyApiCall env s c).events := by
  intro e he
  cases c with
  | del v cb =>
    show e ∈ (lvAnimDel s v cb).events
    unfold lvAnimDel
    split <;> exact he
  | delAll => exact he
  | start a ok =>
    show e ∈ (lvAnimStart env ok s a).events
    have hdel : e ∈ (delPhase s a).events := by
      unfold delPhase
      split
      · show e ∈ (lvAnimDel s a.var a.exec_cb).events
        unfold lvAnimDel
        split <;> exact he
      · exact he
    simp only [lvAnimStart]
    split
    · split
      · exact List.mem_cons_of_mem _ hdel
      · exact hdel
    · exact hdel

theorem events_mono_apiCalls (env : Env) (cs : List ApiCall) (s : AnimState) :
    ∀ e ∈ s.events, e ∈ (applyApiCalls env s cs).events := by
  induction cs generalizing s with
  | nil => exact fun e he => he
  | cons c cs ih =>
    exact fun e he => ih (applyApiCall env s c) e (events_mono_apiCall env s c e he)

theorem events_mono_ready (env : Env) (s : AnimState) (a : AnimRec) :
    ∀ e ∈ s.events, e ∈ (animReadyHandler env s a).events := by
  intro e he
  simp only [animReadyHandler]
  split
  · split
    · exact events_mono_apiCalls env _ _ e (List.mem_cons_of_mem _ he)
    · exact he
  · exact he

theorem next_id_apiCall (env : Env) (s : AnimState) (c : ApiCall) :
    s.next_id ≤ (applyApiCall env s c).next_id := by
  cases c with
  | del v cb =>
    show s.next_id ≤ (lvAnimDel s v cb).next_id
    unfold lvAnimDel
    split <;> exact le_refl _
  | delAll => exact le_refl _
  | start a ok =>
    show s.next_id ≤ (lvAnimStart env ok s a).next_id
    have hdel : (delPhase s a).next_id = s.next_id := by
      unfold delPhase
      split
      · unfold lvAnimDel
        split <;> rfl
      · rfl
    simp only [lvAnimStart]
    split
    · split
      · show s.next_id ≤ (delPhase s a).next_id + 1
        omega
      · show s.next_id ≤ (delPhase s a).next_id + 1
        omega
    · omega

theorem next_id_apiCalls (env : Env) (cs : List ApiCall) (s : AnimState) :
    s.next_id ≤ (applyApiCalls env s cs).next_id := by
  induction cs generalizing s with
  | nil => exact le_refl _
  | cons c cs ih =>
    exact le_trans (next_id_apiCall env s c) (ih (applyApiCall env s c))

theorem ofsRec_clean (env : Env) (elaps : Int) (a : AnimRec) (h : a.get_value_cb = 0) :
    ofsRec env elaps a = a := by
  simp only [ofsRec]
  rw [if_neg (by simp [h])]

theorem tickSetup_clean (env : Env) (elaps : Int) (a : AnimRec) (st : AnimState)
    (hgv : a.get_value_cb = 0) (hsc : a.start_cb = 0) :
    tickSetup env elaps a st = st := by
  simp only [tickSetup]
  split
  · rw [if_neg (show ¬(a.early_apply = false ∧ a.get_value_cb ≠ 0) from fun hc => hc.2 hgv)]
    rw [ofsRec_clean env elaps a hgv]
    rw [if_neg (show ¬a.start_cb ≠ 0 from fun hc => hc hsc)]
  · rfl

theorem storedOf_clean (env : Env) (st : AnimState) (a : AnimRec)
    (h : a.get_value_cb = 0) :
    storedOf env st a
      = { a with id := st.next_id, time_orig := a.time, run_round := st.run_round } := by
  simp only [storedOf]
  rw [if_neg (by simp [h])]

theorem pathValue_at_end (p : Option PathKind) (b : AnimRec) (h : b.time ≤ b.act_time) :
    pathValue p b = b.end_value := by
  cases p with
  | none => exact lvAnimPathLinear_at_end b h
  | some k =>
    show pathEvalK k b = b.end_value
    cases k with
    | linear => exact lvAnimPathLinear_at_end b h
    | easeIn => exact lvAnimPathEaseIn_at_end b h
    | easeOut => exact lvAnimPathEaseOut_at_end b h
    | easeInOut => exact lvAnimPathEaseInOut_at_end b h
    | overshoot => exact lvAnimPathOvershoot_at_end b h
    | bounce => exact lvAnimPathBounce_at_end b h
    | step => exact lvAnimPathStep_at_end b h

/-- Claim C4 (amended): when an animation's elapsed time reaches its
duration while not mid-playback, anim_ready_handler decrements
repeat_count unless it equals the infinite sentinel OR is already zero
(the code guards with repeat_cnt > 0, preventing the uint16 underflow that
a bare decrement would cause); and in the non-terminal branch it rewrites
the record in place: elapsed time resets to -repeat_delay, or to
-playback_delay when about to enter the reverse leg; if playback is
configured the playback flag toggles, start_value and end_value swap, and
the duration becomes playback_time when entering playback and time_orig
when leaving it. -/
theorem anim_ready_repeat_playback (env : Env) (st : AnimState) (a : AnimRec)
    (hmem : a ∈ st.registry) (hnd : (st.registry.map fun r => r.id).Nodup)
    (hnt : ¬isTerminal (decRec a)) :
    animReadyHandler env st a
      = { st with registry := updateById st.registry a.id fun _ =>
          if a.playback_time ≠ 0 then
            { a with
              repeat_cnt := (decRec a).repeat_cnt,
              act_time := if a.playback_now = false then -a.playback_delay
                          else -a.repeat_delay,
              playback_now := !a.playback_now,
              start_value := a.end_value,
              end_value := a.start_value,
              time := if a.playback_now = true then a.time_orig else a.playback_time }
          else { a with repeat_cnt := (decRec a).repeat_cnt,
                        act_time := -a.repeat_delay } }
    ∧ ((decRec a).repeat_cnt + 1 = a.repeat_cnt ↔
        a.playback_now = false ∧ 0 < a.repeat_cnt
          ∧ a.repeat_cnt ≠ LV_ANIM_REPEAT_INFINITE) := by
  constructor
  · simp only [animReadyHandler]
    rw [if_neg hnt]
    unfold regUpdate
    rw [decRec_id]
    rw [updateById_updateById st.registry a.id
      (fun r => { r with repeat_cnt := (decRec a).repeat_cnt }) restartRec fun r => rfl]
    refine congrArg (fun reg => { st with registry := reg }) ?_
    apply updateById_congr_of_mem
    intro r hr hid
    have hra : r = a := nodup_mem_id_eq hnd hmem hr hid
    subst hra
    simp only [restartRec]
  · unfold decRec
    split
    · rename_i hcond
      exact ⟨fun _ => hcond, fun _ => by simp; omega⟩
    · rename_i hcond
      constructor
      · intro hdec
        exact absurd hdec (by omega)
      · intro hc
        exact absurd hc hcond

/-- Record entering the ready handler with repeat_cnt already 0, playback
configured, forward leg: non-terminal, not mid-playback, not infinite. -/
def recC4 : AnimRec :=
  { zeroRec with id := 0, repeat_cnt := 0, playback_time := 300,
                 time := 100, time_orig := 100, act_time := 100 }

/-- One-record registry around recC4. -/
def stC4 : AnimState :=
  { registry := [recC4], run_round := false, list_changed := false,
    next_id := 1, events := [], processedIds := [] }

/-- Counterexample for C4: entering the ready handler not mid-playback
with repeat_cnt = 0 (not the infinite sentinel), the handler leaves the
repeat count at 0 instead of decrementing it - and 0 is not a predecessor
of the entry value 0, refuting the unconditional-decrement reading. -/
theorem anim_ready_no_decrement_at_zero :
    recC4.playback_now = false
    ∧ recC4.repeat_cnt = 0
    ∧ recC4.repeat_cnt ≠ LV_ANIM_REPEAT_INFINITE
    ∧ ((animReadyHandler env0 stC4 recC4).registry.map fun r => r.repeat_cnt) = [0]
    ∧ 0 + 1 ≠ recC4.repeat_cnt := by decide

/-- Three-repeat record finishing its first forward leg, for the C4
witness. -/
def recC4w : AnimRec :=
  { zeroRec with id := 0, repeat_cnt := 3, repeat_delay := 25,
                 time := 100, act_time := 100 }

/-- One-record registry around recC4w. -/
def stC4w : AnimState :=
  { registry := [recC4w], run_round := false, list_changed := false,
    next_id := 1, events := [], processedIds := [] }

/-- Witness for C4: the transition theorem applied to a concrete
three-repeat record; the handler leaves its repeat count at 2. -/
theorem anim_ready_repeat_playback_witness :
    ((animReadyHandler env0 stC4w recC4w).registry.map fun r => r.repeat_cnt) = [2] := by
  have h := anim_ready_repeat_playback env0 stC4w recC4w (by decide) (by decide) (by decide)
  rw [h.1]
  decide

theorem applyApiCalls_nil (env : Env) (s : AnimState) : applyApiCalls env s [] = s := rfl

theorem clampRec_term (b : AnimRec) (h : b.time ≤ b.act_time) :
    clampRec b = { b with act_time := b.time } := by
  unfold clampRec
  split
  · rfl
  · rename_i hc
    have heq : b.act_time = b.time := by omega
    have h2 : ({ b with act_time := b.time } : AnimRec)
        = { b with act_time := b.act_time } := by rw [heq]
    rw [h2]

theorem clampRec_skip (b : AnimRec) (h : ¬b.time < b.act_time) : clampRec b = b := by
  unfold clampRec
  rw [if_neg h]

theorem applied_rec_eq (b : AnimRec) (v : Int) :
    (if v ≠ b.current_value then { b with current_value := v } else b)
      = { b with current_value := v } := by
  split
  · rfl
  · rename_i hc
    push_neg at hc
    rw [hc]

theorem advRec_clean (env : Env) (elaps : Int) (b : AnimRec) (h : b.get_value_cb = 0) :
    advRec env elaps b = { b with act_time := b.act_time + elaps } := by
  simp only [advRec]
  rw [ofsRec_clean env elaps b h]

theorem removeNode_id_gone (i : Nat) (s : AnimState) :
    i ∉ (removeNode i s).registry.map fun r => r.id := by
  intro hc
  rcases List.mem_map.mp hc with ⟨r, hr, he⟩
  have hf := List.of_mem_filter hr
  rw [he] at hf
  simp at hf

theorem next_id_applyStep (env : Env) (b : AnimRec) (s : AnimState) :
    s.next_id ≤ (applyStep env b s).next_id := by
  simp only [applyStep]
  split
  · split
    · have h := next_id_apiCalls env (env.execEff b.exec_cb b.var (pathValue b.path b))
        (pushEvent (Event.execEv b.var (pathValue b.path b))
          (regUpdate b.id (fun r => { r with current_value := pathValue b.path b }) s))
      exact h
    · exact le_refl _
  · exact le_refl _

theorem applyStep_clean_ids (env : Env) (b : AnimRec) (s : AnimState)
    (hex : env.execEff b.exec_cb b.var (pathValue b.path b) = []) :
    (applyStep env b s).registry.map (fun r => r.id) = s.registry.map fun r => r.id := by
  simp only [applyStep]
  split
  · split
    · rw [hex, applyApiCalls_nil]
      exact updateById_ids _ _ _ fun r => rfl
    · exact updateById_ids _ _ _ fun r => rfl
  · rfl

theorem applyStep_events_clean (env : Env) (b : AnimRec) (s : AnimState)
    (hex : env.execEff b.exec_cb b.var (pathValue b.path b) = []) :
    (applyStep env b s).events = s.events
      ∨ (applyStep env b s).events = Event.execEv b.var (pathValue b.path b) :: s.events := by
  simp only [applyStep]
  split
  · split
    · rw [hex, applyApiCalls_nil]
      exact Or.inr rfl
    · exact Or.inl rfl
  · exact Or.inl rfl

/-- Record state just before anim_ready_handler on a terminal frame: the
frame parity taken, elapsed time clamped to the duration, the value at the
duration stored. -/
def preSnap (st : AnimState) (a : AnimRec) : AnimRec :=
  { a with run_round := st.run_round, act_time := a.time,
           current_value := pathValue a.path
             { a with run_round := st.run_round, act_time := a.time } }

/-- Copy handed to the ready callback of a one-shot animation: the
pre-deletion node state with the repeat count consumed. -/
def termSnap (st : AnimState) (a : AnimRec) : AnimRec :=
  { preSnap st a with repeat_cnt := 0 }

theorem applyStep_exec_mem (env : Env) (b : AnimRec) (s : AnimState)
    (hcb : b.exec_cb ≠ 0) (hch : pathValue b.path b ≠ b.current_value) :
    Event.execEv b.var (pathValue b.path b) ∈ (applyStep env b s).events := by
  simp only [applyStep]
  rw [if_pos hch, if_pos hcb]
  exact events_mono_apiCalls env _ _ _ (List.mem_cons_self _ _)

/-- A processed record whose elapsed time reaches its duration this frame
(and whose first-tick callbacks are absent) lands in anim_ready_handler
with the clamped snapshot, in a state whose ready subtrace and allocation
counter the pre-handler steps left intact and which holds the exec event
of the applied final value when change suppression lets it through. -/
theorem processAnim_hits_ready (env : Env) (elaps : Int) (st : AnimState) (a : AnimRec)
    (hgv : a.get_value_cb = 0) (hsc : a.start_cb = 0)
    (hpos : 0 ≤ a.act_time + elaps) (hterm : a.time ≤ a.act_time + elaps) :
    ∃ st7 : AnimState,
      processAnim env elaps st a = animReadyHandler env st7 (preSnap st a)
      ∧ readyEvents st7.events = readyEvents st.events
      ∧ st.next_id ≤ st7.next_id
      ∧ (a.exec_cb ≠ 0 → (preSnap st a).current_value ≠ a.current_value →
          Event.execEv a.var (preSnap st a).current_value ∈ st7.events) := by
  simp only [processAnim, processTail]
  rw [tickSetup_clean env elaps { a with run_round := st.run_round } (flipState st a.id)
    hgv hsc]
  rw [advRec_clean env elaps { a with run_round := st.run_round } hgv]
  dsimp only
  rw [if_pos hpos]
  rw [clampRec_term { a with run_round := st.run_round, act_time := a.act_time + elaps }
    hterm]
  dsimp only
  rw [applied_rec_eq { a with run_round := st.run_round, act_time := a.time }
    (pathValue a.path { a with run_round := st.run_round, act_time := a.time })]
  dsimp only
  rw [if_pos (le_refl a.time)]
  refine ⟨_, rfl, ?_, ?_, ?_⟩
  · rw [readyEvents_applyStep]
    rfl
  · have h := next_id_applyStep env
      { a with run_round := st.run_round, act_time := a.time }
      (regUpdate a.id (fun r => { r with act_time := a.time })
        (regUpdate a.id (fun r => { r with act_time := a.act_time + elaps })
          (flipState st a.id)))
    refine le_trans (le_of_eq ?_) h
    rfl
  · intro hcb hch
    have h := applyStep_exec_mem env
      { a with run_round := st.run_round, act_time := a.time }
      (regUpdate a.id (fun r => { r with act_time := a.time })
        (regUpdate a.id (fun r => { r with act_time := a.act_time + elaps })
          (flipState st a.id)))
      hcb hch
    exact h

theorem ready_terminal_events (env : Env) (s : AnimState) (b : AnimRec)
    (hterm : isTerminal (decRec b)) (hcb : (decRec b).ready_cb ≠ 0) :
    readyEvents (animReadyHandler env s b).events
      = Event.readyEv (decRec b) :: readyEvents s.events := by
  simp only [animReadyHandler]
  rw [if_pos hterm, if_pos hcb]
  rw [readyEvents_apiCalls]
  show readyEvents (Event.readyEv (decRec b) :: _) = _
  rw [readyEvents_ready]
  rfl

theorem ready_terminal_id_gone (env : Env) (s : AnimState) (b : AnimRec)
    (hterm : isTerminal (decRec b)) (hb : b.id < s.next_id) :
    b.id ∉ (animReadyHandler env s b).registry.map fun r => r.id := by
  simp only [animReadyHandler]
  rw [if_pos hterm]
  have hgone : b.id ∉ (removeNode (decRec b).id (regUpdate (decRec b).id
      (fun r => { r with repeat_cnt := (decRec b).repeat_cnt }) s)).registry.map
      fun r => r.id := by
    rw [decRec_id]
    exact removeNode_id_gone b.id _
  split
  · have hfresh : Fresh b.id (pushEvent (Event.readyEv (decRec b))
        (removeNode (decRec b).id (regUpdate (decRec b).id
          (fun r => { r with repeat_cnt := (decRec b).repeat_cnt }) s))) := by
      refine ⟨hgone, ?_⟩
      show b.id < s.next_id
      exact hb
    exact (fresh_apiCalls env _ _ b.id hfresh).1
  · exact hgone

theorem ready_terminal_shape (env : Env) (s : AnimState) (b : AnimRec)
    (hterm : isTerminal (decRec b)) (hcb : (decRec b).ready_cb ≠ 0) :
    ∃ mid : AnimState,
      animReadyHandler env s b
        = applyApiCalls env mid (env.readyEff (decRec b).ready_cb (decRec b))
      ∧ (∀ r ∈ mid.registry, r.id ≠ b.id)
      ∧ mid.events.head? = some (Event.readyEv (decRec b)) := by
  simp only [animReadyHandler]
  rw [if_pos hterm, if_pos hcb]
  refine ⟨_, rfl, ?_, rfl⟩
  intro r hr
  have hf := List.of_mem_filter hr
  rw [decRec_id] at hf
  simpa using hf

theorem decRec_preSnap (st : AnimState) (a : AnimRec) (hrc : a.repeat_cnt = 1)
    (hpn : a.playback_now = false) :
    decRec (preSnap st a) = termSnap st a := by
  unfold decRec termSnap
  have h1 : (preSnap st a).repeat_cnt = 1 := by simp [preSnap, hrc]
  have h2 : (preSnap st a).playback_now = false := by simp [preSnap, hpn]
  rw [if_pos ⟨h2, by omega, by rw [h1]; simp [LV_ANIM_REPEAT_INFINITE]⟩]
  rw [h1]

theorem isTerminal_termSnap (st : AnimState) (a : AnimRec) (hpt : a.playback_time = 0) :
    isTerminal (termSnap st a) := by
  constructor
  · simp [termSnap]
  · left
    simp [termSnap, preSnap, hpt]

theorem termSnap_ready_cb (st : AnimState) (a : AnimRec) :
    (termSnap st a).ready_cb = a.ready_cb := by
  simp [termSnap, preSnap]

theorem preSnap_id (st : AnimState) (a : AnimRec) : (preSnap st a).id = a.id := by
  simp [preSnap]

theorem processAnim_no_ready (env : Env) (elaps : Int) (st : AnimState) (a : AnimRec)
    (hgv : a.get_value_cb = 0) (hsc : a.start_cb = 0)
    (hexec : ∀ v x, env.execEff a.exec_cb v x = [])
    (hless : a.act_time + elaps < a.time) :
    (processAnim env elaps st a).registry.map (fun r => r.id)
        = st.registry.map (fun r => r.id)
    ∧ readyEvents (processAnim env elaps st a).events = readyEvents st.events := by
  simp only [processAnim, processTail]
  rw [tickSetup_clean env elaps { a with run_round := st.run_round } (flipState st a.id) hgv hsc]
  rw [advRec_clean env elaps { a with run_round := st.run_round } hgv]
  dsimp only
  by_cases hpos : (0 : Int) ≤ a.act_time + elaps
  · rw [if_pos hpos]
    rw [clampRec_skip { a with run_round := st.run_round, act_time := a.act_time + elaps }
      (by dsimp only; omega)]
    dsimp only
    rw [applied_rec_eq { a with run_round := st.run_round, act_time := a.act_time + elaps }
      (pathValue a.path { a with run_round := st.run_round, act_time := a.act_time + elaps })]
    dsimp only
    rw [if_neg (show ¬((a.time : Int) ≤ a.act_time + elaps) from by omega)]
    constructor
    · rw [applyStep_clean_ids env
        { a with run_round := st.run_round, act_time := a.act_time + elaps } _ (hexec _ _)]
      simp only [regUpdate, flipState]
      rw [updateById_ids _ a.id (fun r => { r with act_time := a.act_time + elaps })
        fun r => rfl]
      rw [updateById_ids _ a.id (fun r => { r with act_time := a.act_time + elaps })
        fun r => rfl]
      exact updateById_ids _ a.id (fun r => { r with run_round := st.run_round })
        fun r => rfl
    · rw [readyEvents_applyStep]
      rfl
  · rw [if_neg hpos]
    constructor
    · simp only [regUpdate, flipState]
      rw [updateById_ids _ a.id (fun r => { r with act_time := a.act_time + elaps })
        fun r => rfl]
      exact updateById_ids _ a.id (fun r => { r with run_round := st.run_round })
        fun r => rfl
    · rfl

/-- Claim C3: on terminal completion (repeat count one, no playback
configured), the frame iteration whose elapsed time reaches the duration
detaches the record before the ready callback runs: the record's identity
is absent from the resulting registry, exactly one ready event carrying
the final snapshot (the pre-deletion field values with elapsed time
clamped to the duration and the repeat count already at zero) is
appended, and the ready callback's API calls are applied to an
intermediate state that no longer holds the record and whose newest event
is that ready invocation; while elapsed time stays below the duration the
registry's identities are unchanged and no ready event fires. -/
theorem anim_ready_detach_then_callback (env : Env) (elaps : Int) (st : AnimState)
    (a : AnimRec)
    (hgv : a.get_value_cb = 0) (hsc : a.start_cb = 0)
    (hrc : a.repeat_cnt = 1) (hpt : a.playback_time = 0) (hpn : a.playback_now = false)
    (ht : 0 < a.time) (hid : a.id < st.next_id) (hready : a.ready_cb ≠ 0)
    (hexec : ∀ v x, env.execEff a.exec_cb v x = []) :
    (a.time ≤ a.act_time + elaps →
      a.id ∉ (processAnim env elaps st a).registry.map (fun r => r.id)
      ∧ readyEvents (processAnim env elaps st a).events
          = Event.readyEv (termSnap st a) :: readyEvents st.events
      ∧ ∃ mid : AnimState,
          processAnim env elaps st a
            = applyApiCalls env mid (env.readyEff a.ready_cb (termSnap st a))
          ∧ (∀ r ∈ mid.registry, r.id ≠ a.id)
          ∧ mid.events.head? = some (Event.readyEv (termSnap st a)))
    ∧ (a.act_time + elaps < a.time →
      (processAnim env elaps st a).registry.map (fun r => r.id)
          = st.registry.map (fun r => r.id)
      ∧ readyEvents (processAnim env elaps st a).events = readyEvents st.events) := by
  constructor
  · intro hterm
    obtain ⟨st7, heq, hev, hnext, hpush⟩ :=
      processAnim_hits_ready env elaps st a hgv hsc (by omega) hterm
    have hdec := decRec_preSnap st a hrc hpn
    have hterm2 : isTerminal (decRec (preSnap st a)) := by
      rw [hdec]
      exact isTerminal_termSnap st a hpt
    have hcb2 : (decRec (preSnap st a)).ready_cb ≠ 0 := by
      rw [hdec, termSnap_ready_cb]
      exact hready
    refine ⟨?_, ?_, ?_⟩
    · rw [heq]
      have hgone := ready_terminal_id_gone env st7 (preSnap st a) hterm2
        (by rw [preSnap_id]; omega)
      rw [preSnap_id] at hgone
      exact hgone
    · rw [heq, ready_terminal_events env st7 (preSnap st a) hterm2 hcb2, hdec, hev]
    · obtain ⟨mid, hm1, hm2, hm3⟩ := ready_terminal_shape env st7 (preSnap st a) hterm2 hcb2
      refine ⟨mid, ?_, ?_, ?_⟩
      · rw [heq, hm1, hdec, termSnap_ready_cb]
      · intro r hr
        have h := hm2 r hr
        rwa [preSnap_id] at h
      · rw [hm3, hdec]
  · intro hless
    exact processAnim_no_ready env elaps st a hgv hsc hexec hless

/-- Concrete one-shot record for the C3 witness: duration 100, already 60
ticks in, one repeat, no playback, with a ready callback attached. -/
def recC3 : AnimRec :=
  { zeroRec with id := 0, var := 1, exec_cb := 5, ready_cb := 7,
                 time := 100, act_time := 60, end_value := 100, repeat_cnt := 1 }

/-- One-record registry around recC3. -/
def stC3 : AnimState :=
  { registry := [recC3], run_round := false, list_changed := false,
    next_id := 1, events := [], processedIds := [] }

/-- Witness for C3: a 40-tick frame takes recC3 to its duration, and the
processed iteration leaves its identity out of the registry. -/
theorem anim_ready_detach_then_callback_witness :
    0 ∉ (processAnim env0 40 stC3 recC3).registry.map fun r => r.id := by
  have h := anim_ready_detach_then_callback env0 40 stC3 recC3 (by decide) (by decide)
    (by decide) (by decide) (by decide) (by decide) (by decide) (by decide)
    (fun v x => rfl)
  exact ((h.1 (by decide)).1 : recC3.id ∉ _)

/-- Claim C8: a record whose duration is zero completes immediately instead
of failing: as soon as its elapsed time is non-negative the processed
iteration computes the clamped final value, which equals end_value for
every path (the normalised-time mapping clamps at the upper bound rather
than dividing by the zero duration), pushes it through exec_cb when change
suppression lets it through, hands the snapshot to the ready handler and
removes the record; the whole step is a total function of the state, so
the frame update loop cannot fail on such a record. -/
theorem anim_zero_duration_immediate (env : Env) (elaps : Int) (st : AnimState)
    (a : AnimRec)
    (hgv : a.get_value_cb = 0) (hsc : a.start_cb = 0) (ht0 : a.time = 0)
    (hrc : a.repeat_cnt = 1) (hpt : a.playback_time = 0) (hpn : a.playback_now = false)
    (hid : a.id < st.next_id) (hready : a.ready_cb ≠ 0)
    (hpos : 0 ≤ a.act_time + elaps) :
    (termSnap st a).current_value = a.end_value
    ∧ a.id ∉ (processAnim env elaps st a).registry.map (fun r => r.id)
    ∧ readyEvents (processAnim env elaps st a).events
        = Event.readyEv (termSnap st a) :: readyEvents st.events
    ∧ (a.exec_cb ≠ 0 → a.end_value ≠ a.current_value →
        Event.execEv a.var a.end_value ∈ (processAnim env elaps st a).events) := by
  have hterm : a.time ≤ a.act_time + elaps := by omega
  obtain ⟨st7, heq, hev, hnext, hpush⟩ :=
    processAnim_hits_ready env elaps st a hgv hsc hpos hterm
  have hval : (preSnap st a).current_value = a.end_value := by
    show pathValue a.path { a with run_round := st.run_round, act_time := a.time }
        = a.end_value
    exact pathValue_at_end a.path _ (le_refl a.time)
  have hdec := decRec_preSnap st a hrc hpn
  have hterm2 : isTerminal (decRec (preSnap st a)) := by
    rw [hdec]
    exact isTerminal_termSnap st a hpt
  have hcb2 : (decRec (preSnap st a)).ready_cb ≠ 0 := by
    rw [hdec, termSnap_ready_cb]
    exact hready
  refine ⟨?_, ?_, ?_, ?_⟩
  · show (preSnap st a).current_value = a.end_value
    exact hval
  · rw [heq]
    have hgone := ready_terminal_id_gone env st7 (preSnap st a) hterm2
      (by rw [preSnap_id]; omega)
    rwa [preSnap_id] at hgone
  · rw [heq, ready_terminal_events env st7 (preSnap st a) hterm2 hcb2, hdec, hev]
  · intro hcb hch
    rw [heq]
    apply events_mono_ready
    have hm := hpush hcb (by rw [hval]; exact hch)
    rwa [hval] at hm

/-- Zero-duration one-shot record for the C8 witness: submitted with
duration 0, target value 42, exec and ready callbacks attached. -/
def recC8 : AnimRec :=
  { zeroRec with id := 0, var := 3, exec_cb := 5, ready_cb := 7,
                 end_value := 42, repeat_cnt := 1, time := 0 }

/-- One-record registry around recC8. -/
def stC8 : AnimState :=
  { registry := [recC8], run_round := false, list_changed := false,
    next_id := 1, events := [], processedIds := [] }

/-- Witness for C8: a 16 ms frame on the zero-duration record removes it
and invokes its exec callback with the end value 42. -/
theorem anim_zero_duration_immediate_witness :
    0 ∉ (processAnim env0 16 stC8 recC8).registry.map (fun r => r.id)
    ∧ Event.execEv 3 42 ∈ (processAnim env0 16 stC8 recC8).events := by
  have h := anim_zero_duration_immediate env0 16 stC8 recC8 (by decide) (by decide)
    (by decide) (by decide) (by decide) (by decide) (by decide) (by decide) (by decide)
  refine ⟨h.2.1, ?_⟩
  exact h.2.2.2 (by decide) (by decide)

theorem delPhase_events (st : AnimState) (a : AnimRec) :
    (delPhase st a).events = st.events := by
  unfold delPhase lvAnimDel
  split
  · split <;> rfl
  · rfl

theorem applyStep_events_push (env : Env) (b : AnimRec) (s : AnimState)
    (hcb : b.exec_cb ≠ 0) (hch : pathValue b.path b ≠ b.current_value)
    (hex : env.execEff b.exec_cb b.var (pathValue b.path b) = []) :
    (applyStep env b s).events = Event.execEv b.var (pathValue b.path b) :: s.events := by
  simp only [applyStep]
  rw [if_pos hch, if_pos hcb, hex, applyApiCalls_nil]
  rfl

theorem pathValue_start_of (p : Option PathKind) (b : AnimRec)
    (hp : p = some PathKind.linear ∨ p = none)
    (ht : 0 < b.time) (hle : b.act_time ≤ 0) :
    pathValue p b = b.start_value := by
  rcases hp with h | h <;> rw [h]
  · exact lvAnimPathLinear_at_start b ht hle
  · exact lvAnimPathLinear_at_start b ht hle

/-- A processed iteration that stays strictly below the duration, on a
record whose value this frame differs from the stored current_value and
whose exec callback performs no registry calls, appends exactly the exec
event of the newly computed value. -/
theorem processAnim_first_exec (env : Env) (elaps : Int) (st : AnimState) (b : AnimRec)
    (hgv : b.get_value_cb = 0) (hsc : b.start_cb = 0)
    (hpos : 0 ≤ b.act_time + elaps) (hless : b.act_time + elaps < b.time)
    (hcb : b.exec_cb ≠ 0)
    (hch : pathValue b.path { b with run_round := st.run_round, act_time := b.act_time + elaps }
        ≠ b.current_value)
    (hex : ∀ v x, env.execEff b.exec_cb v x = []) :
    (processAnim env elaps st b).events
      = Event.execEv b.var
          (pathValue b.path { b with run_round := st.run_round, act_time := b.act_time + elaps })
        :: st.events := by
  simp only [processAnim, processTail]
  rw [tickSetup_clean env elaps { b with run_round := st.run_round } (flipState st b.id) hgv hsc]
  rw [advRec_clean env elaps { b with run_round := st.run_round } hgv]
  dsimp only
  rw [if_pos hpos]
  rw [clampRec_skip { b with run_round := st.run_round, act_time := b.act_time + elaps }
    (by dsimp only; omega)]
  dsimp only
  rw [applied_rec_eq { b with run_round := st.run_round, act_time := b.act_time + elaps }
    (pathValue b.path { b with run_round := st.run_round, act_time := b.act_time + elaps })]
  dsimp only
  rw [if_neg (show ¬((b.time : Int) ≤ b.act_time + elaps) from by omega)]
  rw [applyStep_events_push env
    { b with run_round := st.run_round, act_time := b.act_time + elaps } _ hcb hch (hex _ _)]
  rfl

/-- Claim C10: the early apply of lv_anim_start pushes start_value through
exec_cb but stores a record whose current_value keeps the descriptor's
zero initialisation; hence on a record with nonzero start_value the first
frame evaluation, which yields start_value again (linear or default path,
no configured delay), is not caught by the change-suppression comparison
against current_value and exec_cb fires a second time with the very same
value. -/
theorem lv_anim_start_early_apply_double_exec (env : Env) (st : AnimState) (a : AnimRec)
    (hea : a.early_apply = true) (hcb : a.exec_cb ≠ 0) (hvar : a.var ≠ 0)
    (hgv : a.get_value_cb = 0) (hsc : a.start_cb = 0)
    (hcur : a.current_value = 0) (hs0 : a.start_value ≠ 0)
    (hact : a.act_time = 0) (ht : 0 < a.time)
    (hpath : a.path = some PathKind.linear ∨ a.path = none)
    (hex : ∀ v x, env.execEff a.exec_cb v x = []) :
    (storedOf env (delPhase st a) a).current_value = 0
    ∧ (lvAnimStart env true st a).events
        = Event.execEv a.var a.start_value :: st.events
    ∧ (processAnim env 0 (lvAnimStart env true st a)
          (storedOf env (delPhase st a) a)).events
        = Event.execEv a.var a.start_value
          :: Event.execEv a.var a.start_value :: st.events := by
  have hst : storedOf env (delPhase st a) a
      = { a with id := (delPhase st a).next_id, time_orig := a.time,
                 run_round := (delPhase st a).run_round } :=
    storedOf_clean env (delPhase st a) a hgv
  have hev1 : (lvAnimStart env true st a).events
      = Event.execEv a.var a.start_value :: st.events := by
    simp only [lvAnimStart]
    rw [if_pos trivial]
    rw [hst]
    dsimp only
    rw [if_pos (show a.early_apply = true ∧ a.exec_cb ≠ 0 ∧ a.var ≠ 0 from ⟨hea, hcb, hvar⟩)]
    show Event.execEv a.var a.start_value :: (delPhase st a).events
        = Event.execEv a.var a.start_value :: st.events
    rw [delPhase_events]
  refine ⟨?_, hev1, ?_⟩
  · rw [hst]
    exact hcur
  · have hpv : pathValue (storedOf env (delPhase st a) a).path
        { storedOf env (delPhase st a) a with
            run_round := (lvAnimStart env true st a).run_round,
            act_time := (storedOf env (delPhase st a) a).act_time + 0 }
        = a.start_value := by
      have h := pathValue_start_of (storedOf env (delPhase st a) a).path
        { storedOf env (delPhase st a) a with
            run_round := (lvAnimStart env true st a).run_round,
            act_time := (storedOf env (delPhase st a) a).act_time + 0 }
        (by rw [hst]; exact hpath)
        (by rw [hst]; dsimp only; omega)
        (by rw [hst]; dsimp only; omega)
      rw [h, hst]
    have h3 := processAnim_first_exec env 0 (lvAnimStart env true st a)
      (storedOf env (delPhase st a) a)
      (by rw [hst]; exact hgv)
      (by rw [hst]; exact hsc)
      (by rw [hst]; dsimp only; omega)
      (by rw [hst]; dsimp only; omega)
      (by rw [hst]; exact hcb)
      (by rw [hpv, hst]; dsimp only; rw [hcur]; exact hs0)
      (by rw [hst]; exact hex)
    rw [h3, hpv, hev1, hst]

/-- Initialised descriptor for the C10 witness: default init with target
var 2, exec callback 9 and nonzero start value 7. -/
def recC10 : AnimRec :=
  { lvAnimInit with var := 2, exec_cb := 9, start_value := 7 }

/-- Empty registry the C10 witness starts from. -/
def stC10 : AnimState :=
  { registry := [], run_round := false, list_changed := false,
    next_id := 0, events := [], processedIds := [] }

/-- Witness for C10: starting recC10 and processing its first zero-elapsed
frame leaves two exec invocations with the same value 7 in the trace. -/
theorem lv_anim_start_early_apply_double_exec_witness :
    (processAnim env0 0 (lvAnimStart env0 true stC10 recC10)
        (storedOf env0 (delPhase stC10 recC10) recC10)).events
      = [Event.execEv 2 7, Event.execEv 2 7] := by
  have h := lv_anim_start_early_apply_double_exec env0 stC10 recC10 (by decide) (by decide)
    (by decide) (by decide) (by decide) (by decide) (by decide) (by decide) (by decide)
    (Or.inl rfl) (fun v x => rfl)
  rw [h.2.2]
  rfl
